import Mathlib

/-!
# The PDF font loader (`pdf/pdf_font.c`)

A shallow embedding of the font loader: the glyph resolver, the name
canonicalizer, the loader dispatch, the `W` / `W2` / `Widths` /
`Differences` readers, the font file loaders, the simple-font loader and
the width table, followed by the properties proved about them.

Conventions of the embedding.

* A C string is the list of its characters before the terminating NUL
  (`CStr`); a `char *` that may be `NULL` is an `Option CStr`.
* A C `int` is an `Int`; where a sum can leave the `int` range the
  two's-complement wrap is explicit (`int_add`).
* The objects of the model carry no real numbers, so a C `float` only
  ever holds the conversion of an `int`: a whole number, kept as an `Int`
  (`float_value`), with the rounding of the conversion explicit
  (`int_to_float`) and the conversion back undefined outside the `int`
  range (`float_to_int`).
* A read or write outside an array is a fault: the function returns `none`,
  or `fz_failure.fault` where it can also throw.
* A loop without a bound in its header runs on fuel; the fuel given is
  proved to be enough wherever a result is claimed.
* Functions of FreeType and of the other translation units of the
  library are fields of the structures they act on (`FT_Face`, `pdf_cmap`)
  or of the environment `Env`; the readers of the object model and the
  metrics builders are modelled from the specification and say so.
* `fz_warn` only logs and `fontdesc->size` only accounts for memory; both
  are left out.
-/

namespace PdfFont

/-! ## Machine integers and strings -/

/-- A C string, without its terminating NUL. -/
abbrev CStr := List Char

/-- Two's-complement reduction of an integer to the 32-bit `int` range. -/
def wrap_int (x : Int) : Int := (x + 2147483648) % 4294967296 - 2147483648

/-- C `int` addition. -/
def int_add (a b : Int) : Int := wrap_int (a + b)

/-- A C `float` (IEEE 754 binary32) whose value is a whole number, kept as
that number. -/
abbrev float_value := Int

/-- The spacing of the `float` values around a magnitude `a`: the least
`s` among `s`, `2 s`, `4 s`, ... with `a < 2 ^ 24 * s` (a `float` has 24
significant bits), found in at most `fuel` doublings. -/
def float_spacing : Nat → Nat → Nat → Nat
  | 0, _, s => s
  | fuel + 1, a, s => if a < 2 ^ 24 * s then s else float_spacing fuel a (2 * s)

/-- The conversion of a C `int` to `float`: the nearest `float` value, the
one with the even significand when two are equally near.  Eight doublings
of the spacing cover the magnitudes of a 32-bit `int`. -/
def int_to_float (i : Int) : float_value :=
  let a := i.natAbs
  let s := float_spacing 8 a 1
  let q := a / s
  let r := a % s
  let q :=
    if 2 * r < s then q
    else if s < 2 * r then q + 1
    else if q % 2 = 0 then q else q + 1
  if i < 0 then -((q * s : Nat) : Int) else ((q * s : Nat) : Int)

/-- The conversion of a whole `float` to `int`: the same number, and
undefined (`none`) when it is outside the `int` range. -/
def float_to_int (x : float_value) : Option Int :=
  if -2147483648 ≤ x ∧ x ≤ 2147483647 then some x else none

/-! ## FreeType faces and CMaps -/

/-- One entry of `face->charmaps`. -/
structure FT_CharMap where
  platform_id : Nat
  encoding_id : Nat
deriving DecidableEq, Repr

/-- What the loader sees of a FreeType face.  A charmap is named by its
position in `charmaps`; `charmap` is the active one (`face->charmap`).
`char_index` is `FT_Get_Char_Index` as a function of the active charmap and
of the code; glyph indices are `FT_UInt` values below the face's glyph
count, so their conversion to `int` keeps the value.  `set_charmap_error`
is the result of `FT_Set_Charmap`, `name_index` is `FT_Get_Name_Index`,
`glyph_name` is the result and the buffer of `FT_Get_Glyph_Name`,
`load_glyph_error` the result of `FT_Load_Glyph` and `advance_x` the value
of `glyph->advance.x` after it, at the character size the loader sets. -/
structure FT_Face where
  format : CStr
  style_flags : Nat
  charmaps : List FT_CharMap
  charmap : Option Nat
  char_index : Option Nat → Int → Nat
  set_charmap_error : Nat → Int
  name_index : CStr → Nat
  has_glyph_names : Bool
  glyph_name : Nat → Int × CStr
  load_glyph_error : Int → Int
  advance_x : Int → Int
  is_tricky : Bool

/-- The FreeType query `FT_Get_Char_Index (face, code)`. -/
def FT_Get_Char_Index (face : FT_Face) (code : Int) : Nat :=
  face.char_index face.charmap code

/-- A CMap, seen through `pdf_lookup_cmap` and `pdf_get_wmode`. -/
structure pdf_cmap where
  cmap_name : CStr
  wmode : Int
  lookup : Int → Int

/-- The CMap query `pdf_lookup_cmap (cmap, code)`. -/
def pdf_lookup_cmap (cmap : pdf_cmap) (code : Int) : Int := cmap.lookup code

/-- The CMap query `pdf_get_wmode (cmap)`. -/
def pdf_get_wmode (cmap : pdf_cmap) : Int := cmap.wmode

/-! ## Font descriptors -/

/-- The fields of `fz_font` the loader reads or writes. -/
structure fz_font where
  name : CStr
  ft_face : Option FT_Face
  ft_substitute : Bool
  ft_bold : Bool
  ft_italic : Bool
  ft_hint : Bool

/-- One horizontal metrics range. -/
structure pdf_hmtx where
  lo : Int
  hi : Int
  w : Int
deriving DecidableEq, Repr

/-- One vertical metrics range. -/
structure pdf_vmtx where
  lo : Int
  hi : Int
  x : Int
  y : Int
  w : Int
deriving DecidableEq, Repr

/-- The font descriptor.  `cid_to_gid` is the `unsigned short` array (its
list length is the allocated length), `none` for the `NULL` pointer; the
`float` metrics other than `missing_width` play no part below and are
left out. -/
structure pdf_font_desc where
  font : Option fz_font
  flags : Int
  missing_width : float_value
  encoding : Option pdf_cmap
  to_ttf_cmap : Option pdf_cmap
  cid_to_gid_len : Int
  cid_to_gid : Option (List Nat)
  to_unicode : Option pdf_cmap
  wmode : Int
  hmtx : List pdf_hmtx
  vmtx : List pdf_vmtx
  dhmtx : pdf_hmtx
  dvmtx : pdf_vmtx
  is_embedded : Bool

/-- The constructor `pdf_new_font_desc`. -/
def pdf_new_font_desc : pdf_font_desc where
  font := none
  flags := 0
  missing_width := 0
  encoding := none
  to_ttf_cmap := none
  cid_to_gid_len := 0
  cid_to_gid := none
  to_unicode := none
  wmode := 0
  hmtx := []
  vmtx := []
  dhmtx := ⟨0x0000, 0xFFFF, 1000⟩
  dvmtx := ⟨0x0000, 0xFFFF, 0, 880, -1000⟩
  is_embedded := false

/-! ## The glyph resolver -/

/-- The function `ft_char_index`: the code, then `0xf000 + code`, then
`0x2026` for the code `0x22ef`. -/
def ft_char_index (face : FT_Face) (cid : Int) : Int :=
  let gid : Int := FT_Get_Char_Index face cid
  let gid : Int := if gid = 0 then FT_Get_Char_Index face (int_add 0xf000 cid) else gid
  let gid : Int := if gid = 0 ∧ cid = 0x22ef then FT_Get_Char_Index face 0x2026 else gid
  gid

/-- An array read `a[i]` with an `int` index: a fault outside the array. -/
def array_read (a : List Nat) (i : Int) : Option Int :=
  if 0 ≤ i ∧ i < a.length then some (a.getD i.toNat 0 : Nat) else none

/-- The function `ft_cid_to_gid`, for a descriptor whose font has the face
`face`. -/
def ft_cid_to_gid (face : FT_Face) (fontdesc : pdf_font_desc) (cid : Int) : Option Int :=
  match fontdesc.to_ttf_cmap with
  | some to_ttf_cmap =>
    let cid := pdf_lookup_cmap to_ttf_cmap cid
    some (ft_char_index face cid)
  | none =>
    match fontdesc.cid_to_gid with
    | some cid_to_gid => array_read cid_to_gid cid
    | none => some cid

/-- The function `pdf_font_cid_to_gid`.  It reads `fontdesc->font`
unguarded, so a descriptor without a font is a fault. -/
def pdf_font_cid_to_gid (fontdesc : pdf_font_desc) (cid : Int) : Option Int :=
  match fontdesc.font with
  | none => none
  | some font =>
    match font.ft_face with
    | some face => ft_cid_to_gid face fontdesc cid
    | none => some cid

/-- The array of a descriptor is as long as `cid_to_gid_len` says. -/
def table_well_formed (d : pdf_font_desc) : Prop :=
  ∀ arr, d.cid_to_gid = some arr → (arr.length : Int) = d.cid_to_gid_len

/-! ## Name canonicalization -/

/-- The table `base_font_names`: each row holds the entries before its
`NULL`, the canonical name first. -/
def base_font_names : List (List CStr) :=
  [ ["Courier".toList, "CourierNew".toList, "CourierNewPSMT".toList],
    ["Courier-Bold".toList, "CourierNew,Bold".toList, "Courier,Bold".toList,
      "CourierNewPS-BoldMT".toList, "CourierNew-Bold".toList],
    ["Courier-Oblique".toList, "CourierNew,Italic".toList, "Courier,Italic".toList,
      "CourierNewPS-ItalicMT".toList, "CourierNew-Italic".toList],
    ["Courier-BoldOblique".toList, "CourierNew,BoldItalic".toList, "Courier,BoldItalic".toList,
      "CourierNewPS-BoldItalicMT".toList, "CourierNew-BoldItalic".toList],
    ["Helvetica".toList, "ArialMT".toList, "Arial".toList],
    ["Helvetica-Bold".toList, "Arial-BoldMT".toList, "Arial,Bold".toList, "Arial-Bold".toList,
      "Helvetica,Bold".toList],
    ["Helvetica-Oblique".toList, "Arial-ItalicMT".toList, "Arial,Italic".toList,
      "Arial-Italic".toList, "Helvetica,Italic".toList, "Helvetica-Italic".toList],
    ["Helvetica-BoldOblique".toList, "Arial-BoldItalicMT".toList,
      "Arial,BoldItalic".toList, "Arial-BoldItalic".toList,
      "Helvetica,BoldItalic".toList, "Helvetica-BoldItalic".toList],
    ["Times-Roman".toList, "TimesNewRomanPSMT".toList, "TimesNewRoman".toList,
      "TimesNewRomanPS".toList],
    ["Times-Bold".toList, "TimesNewRomanPS-BoldMT".toList, "TimesNewRoman,Bold".toList,
      "TimesNewRomanPS-Bold".toList, "TimesNewRoman-Bold".toList],
    ["Times-Italic".toList, "TimesNewRomanPS-ItalicMT".toList, "TimesNewRoman,Italic".toList,
      "TimesNewRomanPS-Italic".toList, "TimesNewRoman-Italic".toList],
    ["Times-BoldItalic".toList, "TimesNewRomanPS-BoldItalicMT".toList,
      "TimesNewRoman,BoldItalic".toList, "TimesNewRomanPS-BoldItalic".toList,
      "TimesNewRoman-BoldItalic".toList],
    ["Symbol".toList],
    ["ZapfDingbats".toList] ]

/-- The inner loops `while (*a == ' ') a++`. -/
def skip_spaces : CStr → CStr
  | [] => []
  | c :: p => if c = ' ' then skip_spaces p else c :: p

/-- The loop of `strcmp_ignore_space`, one iteration per unit of fuel;
`p.head?` is `*p`, with `none` for the terminating NUL.  `none` when the
fuel runs out. -/
def strcmp_ignore_space_loop : Nat → CStr → CStr → Option Int
  | 0, _, _ => none
  | fuel + 1, a, b =>
    let a := skip_spaces a
    let b := skip_spaces b
    if a.head? ≠ b.head? then some 1
    else if a.head? = none then some (if a.head? ≠ b.head? then 1 else 0)
    else if b.head? = none then some (if a.head? ≠ b.head? then 1 else 0)
    else strcmp_ignore_space_loop fuel a.tail b.tail

/-- The function `strcmp_ignore_space`; every iteration that does not
return moves `a` forward, so `a.length + 1` iterations are enough. -/
def strcmp_ignore_space (a b : CStr) : Option Int :=
  strcmp_ignore_space_loop (a.length + 1) a b

/-- The loop over `k` of `clean_font_name` in one row: whether an entry of
the row compares equal to `fontname`. -/
def clean_font_name_row (fontname : CStr) : List CStr → Option Bool
  | [] => some false
  | entry :: rest =>
    match strcmp_ignore_space entry fontname with
    | none => none
    | some r => if r = 0 then some true else clean_font_name_row fontname rest

/-- The pointer `clean_font_name` returns: `base_font_names[i][0]` or its
argument. -/
inductive name_ref where
  | table (i : Nat)
  | argument
deriving DecidableEq, Repr

/-- The loop over `i` of `clean_font_name`, from row `i` on. -/
def clean_font_name_from (fontname : CStr) : List (List CStr) → Nat → Option name_ref
  | [], _ => some name_ref.argument
  | row :: rows, i =>
    match clean_font_name_row fontname row with
    | none => none
    | some true => some (name_ref.table i)
    | some false => clean_font_name_from fontname rows (i + 1)

/-- Which pointer `clean_font_name (fontname)` returns. -/
def clean_font_name_ref (fontname : CStr) : Option name_ref :=
  clean_font_name_from fontname base_font_names 0

/-- The string behind a pointer returned by `clean_font_name`. -/
def name_ref.deref (fontname : CStr) : name_ref → CStr
  | name_ref.table i => (base_font_names.getD i []).headD []
  | name_ref.argument => fontname

/-- The function `clean_font_name`, as the string it returns. -/
def clean_font_name (fontname : CStr) : Option CStr :=
  (clean_font_name_ref fontname).map (name_ref.deref fontname)

/-- A string with its spaces deleted. -/
def delete_spaces (s : CStr) : CStr := s.filter (fun c => c ≠ ' ')

/-! ## PDF objects -/

/-- A PDF object as the loader sees it.  A C pointer to an object is an
`Option fz_obj`, `none` for `NULL`.  Real number objects are left out: the
numbers of the dictionaries modelled here are integer objects. -/
inductive fz_obj where
  | null
  | bool (b : Bool)
  | int (i : Int)
  | string (s : CStr)
  | name (s : CStr)
  | array (items : List fz_obj)
  | dict (entries : List (CStr × fz_obj))
  | indirect (num : Int) (gen : Int)

/-- Modelled from the spec: the type predicate `is_int` of the object model
(`fz_is_int`), false for `NULL`. -/
def fz_is_int : Option fz_obj → Bool
  | some (fz_obj.int _) => true
  | _ => false

/-- Modelled from the spec: the type predicate `is_name` of the object
model (`fz_is_name`), false for `NULL`. -/
def fz_is_name : Option fz_obj → Bool
  | some (fz_obj.name _) => true
  | _ => false

/-- Modelled from the spec: the type predicate `is_array` of the object
model (`fz_is_array`), false for `NULL`. -/
def fz_is_array : Option fz_obj → Bool
  | some (fz_obj.array _) => true
  | _ => false

/-- Modelled from the spec: the type predicate `is_dict` of the object
model (`fz_is_dict`), false for `NULL`. -/
def fz_is_dict : Option fz_obj → Bool
  | some (fz_obj.dict _) => true
  | _ => false

/-- Modelled from the spec: the type predicate `is_indirect` of the object
model (`fz_is_indirect`), false for `NULL`. -/
def fz_is_indirect : Option fz_obj → Bool
  | some (fz_obj.indirect _ _) => true
  | _ => false

/-- Modelled from the spec: the coercion `to_int` of the object model
(`fz_to_int`): the value of an integer object, 0 for `NULL` and for an
object of another type. -/
def fz_to_int : Option fz_obj → Int
  | some (fz_obj.int i) => i
  | _ => 0

/-- Modelled from the spec: the coercion `to_real` of the object model
(`fz_to_real`): the value of an integer object converted to `float`, 0 for
`NULL` and for an object of another type. -/
def fz_to_real : Option fz_obj → float_value
  | some (fz_obj.int i) => int_to_float i
  | _ => 0

/-- Modelled from the spec: the coercion `to_name` of the object model
(`fz_to_name`): the characters of a name object, the empty string for
`NULL` and for an object of another type. -/
def fz_to_name : Option fz_obj → CStr
  | some (fz_obj.name s) => s
  | _ => []

/-- Modelled from the spec: the length of an array object
(`fz_array_len`), 0 for `NULL` and for an object of another type. -/
def fz_array_len : Option fz_obj → Nat
  | some (fz_obj.array items) => items.length
  | _ => 0

/-- Modelled from the spec: `array_get (i)` of the object model
(`fz_array_get`): the element at index `i`, `NULL` past the end of the
array, for `NULL` and for an object of another type. -/
def fz_array_get : Option fz_obj → Nat → Option fz_obj
  | some (fz_obj.array items), i => items.get? i
  | _, _ => none

/-- The first value stored under a key in the entries of a dictionary. -/
def dict_find (key : CStr) : List (CStr × fz_obj) → Option fz_obj
  | [] => none
  | (k, v) :: rest => if k = key then some v else dict_find key rest

/-- Modelled from the spec: `dict_get (name)` of the object model
(`fz_dict_gets`): the value stored under the key, `NULL` when the key is
missing, for `NULL` and for an object of another type. -/
def fz_dict_gets : Option fz_obj → CStr → Option fz_obj
  | some (fz_obj.dict entries), key => dict_find key entries
  | _, _ => none

/-! ## The dispatcher -/

/-- The three loaders `pdf_load_font` hands a dictionary to:
`pdf_load_type0_font`, `pdf_load_simple_font` and `pdf_load_type3_font`. -/
inductive font_loader where
  | type0
  | simple
  | type3
deriving DecidableEq, Repr

/-- The routing of `pdf_load_font` for a dictionary that `fz_find_item` did
not find in the store: the loader called and the warning issued before
it. -/
def pdf_load_font_route (dict : Option fz_obj) : font_loader × Option CStr :=
  let subtype := fz_to_name (fz_dict_gets dict "Subtype".toList)
  let dfonts := fz_dict_gets dict "DescendantFonts".toList
  let charprocs := fz_dict_gets dict "CharProcs".toList
  if subtype = "Type0".toList then (font_loader.type0, none)
  else if subtype = "Type1".toList then (font_loader.simple, none)
  else if subtype = "MMType1".toList then (font_loader.simple, none)
  else if subtype = "TrueType".toList then (font_loader.simple, none)
  else if subtype = "Type3".toList then (font_loader.type3, none)
  else if charprocs.isSome then
    (font_loader.type3, some "unknown font format, guessing type3.".toList)
  else if dfonts.isSome then
    (font_loader.type0, some "unknown font format, guessing type0.".toList)
  else
    (font_loader.simple, some "unknown font format, guessing type1 or truetype.".toList)

/-! ## Metrics tables -/

/-- Modelled from the spec: `add_hmtx (lo, hi, w)` (`pdf_add_hmtx`) appends
a range to the horizontal metrics. -/
def pdf_add_hmtx (fontdesc : pdf_font_desc) (lo hi w : Int) : pdf_font_desc :=
  { fontdesc with hmtx := fontdesc.hmtx ++ [⟨lo, hi, w⟩] }

/-- Modelled from the spec: `set_default_hmtx` (`pdf_set_default_hmtx`)
sets the width of the default horizontal metrics. -/
def pdf_set_default_hmtx (fontdesc : pdf_font_desc) (w : Int) : pdf_font_desc :=
  { fontdesc with dhmtx := { fontdesc.dhmtx with w := w } }

/-! ## The `W` array of a CID font -/

/-- The loop over `k` of the `W` reader of `load_cid_font`, for the array
`obj` of length `m` that follows the code `c0`. -/
def load_cid_font_W_array (obj : Option fz_obj) (c0 : Int) (m : Nat)
    (fontdesc : pdf_font_desc) : pdf_font_desc :=
  (List.range m).foldl
    (fun fontdesc k =>
      let w := fz_to_int (fz_array_get obj k)
      pdf_add_hmtx fontdesc (int_add c0 k) (int_add c0 k) w)
    fontdesc

/-- The loop `for (i = 0; i < n; )` of the `W` reader of `load_cid_font`,
one iteration per unit of fuel; `none` when the fuel runs out. -/
def load_cid_font_W_loop (widths : Option fz_obj) (n : Nat) :
    Nat → Nat → pdf_font_desc → Option pdf_font_desc
  | 0, _, _ => none
  | fuel + 1, i, fontdesc =>
    if i < n then
      let c0 := fz_to_int (fz_array_get widths i)
      let obj := fz_array_get widths (i + 1)
      if fz_is_array obj then
        let m := fz_array_len obj
        load_cid_font_W_loop widths n fuel (i + 2) (load_cid_font_W_array obj c0 m fontdesc)
      else
        let c1 := fz_to_int obj
        let w := fz_to_int (fz_array_get widths (i + 2))
        load_cid_font_W_loop widths n fuel (i + 3) (pdf_add_hmtx fontdesc c0 c1 w)
    else some fontdesc

/-- The horizontal metrics step of `load_cid_font`, from `dw = 1000` to the
end of the `W` loop (before `pdf_end_hmtx`).  Every iteration moves `i`
forward, so `n + 1` units of fuel are enough. -/
def load_cid_font_horizontal (dict : Option fz_obj) (fontdesc : pdf_font_desc) :
    Option pdf_font_desc :=
  let dw : Int := 1000
  let obj := fz_dict_gets dict "DW".toList
  let dw := if obj.isSome then fz_to_int obj else dw
  let fontdesc := pdf_set_default_hmtx fontdesc dw
  let widths := fz_dict_gets dict "W".toList
  if widths.isSome then
    let n := fz_array_len widths
    load_cid_font_W_loop widths n (n + 1) 0 fontdesc
  else some fontdesc

/-- A record of a well-formed `W` array: `c0 [w1 ... wm]` or `c0 c1 w`. -/
inductive W_record where
  | list (c0 : Int) (ws : List Int)
  | range (c0 c1 w : Int)
deriving DecidableEq, Repr

/-- The objects a record is written with. -/
def W_record.objects : W_record → List fz_obj
  | W_record.list c0 ws => [fz_obj.int c0, fz_obj.array (ws.map fz_obj.int)]
  | W_record.range c0 c1 w => [fz_obj.int c0, fz_obj.int c1, fz_obj.int w]

/-- The objects of a well-formed `W` array, record after record. -/
def W_objects : List W_record → List fz_obj
  | [] => []
  | r :: rs => r.objects ++ W_objects rs

/-- The single-code ranges `(c0, c0, w1), (c0 + 1, c0 + 1, w2), ...`. -/
def single_ranges (c0 : Int) : List Int → List pdf_hmtx
  | [] => []
  | w :: ws => ⟨c0, c0, w⟩ :: single_ranges (c0 + 1) ws

/-- The ranges a record stands for. -/
def W_record.ranges : W_record → List pdf_hmtx
  | W_record.list c0 ws => single_ranges c0 ws
  | W_record.range c0 c1 w => [⟨c0, c1, w⟩]

/-- The ranges a well-formed `W` array stands for, in array order. -/
def W_ranges : List W_record → List pdf_hmtx
  | [] => []
  | r :: rs => r.ranges ++ W_ranges rs

/-- The codes `c0 + k` of a list record are `int` values. -/
def W_record.fits : W_record → Bool
  | W_record.list c0 ws => decide (-2147483648 ≤ c0 ∧ c0 + ws.length ≤ 2147483648)
  | W_record.range _ _ _ => true

/-! ## The `W2` array of a CID font -/

/-- Modelled from the spec: `add_vmtx` (`pdf_add_vmtx`) appends a range,
with its origin and advance, to the vertical metrics. -/
def pdf_add_vmtx (fontdesc : pdf_font_desc) (lo hi x y w : Int) : pdf_font_desc :=
  { fontdesc with vmtx := fontdesc.vmtx ++ [⟨lo, hi, x, y, w⟩] }

/-- Modelled from the spec: `set_default_vmtx` (`pdf_set_default_vmtx`)
sets the origin `y` and the advance `w` of the default vertical metrics. -/
def pdf_set_default_vmtx (fontdesc : pdf_font_desc) (y w : Int) : pdf_font_desc :=
  { fontdesc with dvmtx := { fontdesc.dvmtx with y := y, w := w } }

/-- The loop `for (k = 0; k * 3 < m; k++)` of the `W2` reader of
`load_cid_font`, for the array `obj` of length `m` that follows the code
`c0`; it runs for the `k` below `(m + 2) / 3`. -/
def load_cid_font_W2_array (obj : Option fz_obj) (c0 : Int) (m : Nat)
    (fontdesc : pdf_font_desc) : pdf_font_desc :=
  (List.range ((m + 2) / 3)).foldl
    (fun fontdesc k =>
      let w := fz_to_int (fz_array_get obj (k * 3 + 0))
      let x := fz_to_int (fz_array_get obj (k * 3 + 1))
      let y := fz_to_int (fz_array_get obj (k * 3 + 2))
      pdf_add_vmtx fontdesc (int_add c0 k) (int_add c0 k) x y w)
    fontdesc

/-- The loop `for (i = 0; i < n; )` of the `W2` reader of `load_cid_font`,
one iteration per unit of fuel; `none` when the fuel runs out. -/
def load_cid_font_W2_loop (widths : Option fz_obj) (n : Nat) :
    Nat → Nat → pdf_font_desc → Option pdf_font_desc
  | 0, _, _ => none
  | fuel + 1, i, fontdesc =>
    if i < n then
      let c0 := fz_to_int (fz_array_get widths i)
      let obj := fz_array_get widths (i + 1)
      if fz_is_array obj then
        let m := fz_array_len obj
        load_cid_font_W2_loop widths n fuel (i + 2) (load_cid_font_W2_array obj c0 m fontdesc)
      else
        let c1 := fz_to_int obj
        let w := fz_to_int (fz_array_get widths (i + 2))
        let x := fz_to_int (fz_array_get widths (i + 3))
        let y := fz_to_int (fz_array_get widths (i + 4))
        load_cid_font_W2_loop widths n fuel (i + 5) (pdf_add_vmtx fontdesc c0 c1 x y w)
    else some fontdesc

/-- The vertical metrics step of `load_cid_font`, from the test of the
writing mode to the end of the `W2` loop (before `pdf_end_vmtx`).  A
descriptor without an encoding is a fault. -/
def load_cid_font_vertical (dict : Option fz_obj) (fontdesc : pdf_font_desc) :
    Option pdf_font_desc :=
  match fontdesc.encoding with
  | none => none
  | some encoding =>
    if pdf_get_wmode encoding = 1 then
      let dw2y : Int := 880
      let dw2w : Int := -1000
      let obj := fz_dict_gets dict "DW2".toList
      let dw2y := if obj.isSome then fz_to_int (fz_array_get obj 0) else dw2y
      let dw2w := if obj.isSome then fz_to_int (fz_array_get obj 1) else dw2w
      let fontdesc := pdf_set_default_vmtx fontdesc dw2y dw2w
      let widths := fz_dict_gets dict "W2".toList
      if widths.isSome then
        let n := fz_array_len widths
        load_cid_font_W2_loop widths n (n + 1) 0 fontdesc
      else some fontdesc
    else some fontdesc

/-- A record of a well-formed `W2` array: `c0 [w1 x1 y1 w2 x2 y2 ...]`, its
list holding the triples `(w, x, y)`, or `c0 c1 w x y`. -/
inductive W2_record where
  | list (c0 : Int) (triples : List (Int × Int × Int))
  | range (c0 c1 w x y : Int)
deriving DecidableEq, Repr

/-- The objects a list of triples `(w, x, y)` is written with. -/
def W2_triples_objects : List (Int × Int × Int) → List fz_obj
  | [] => []
  | (w, x, y) :: triples =>
    fz_obj.int w :: fz_obj.int x :: fz_obj.int y :: W2_triples_objects triples

/-- The objects a `W2` record is written with. -/
def W2_record.objects : W2_record → List fz_obj
  | W2_record.list c0 triples => [fz_obj.int c0, fz_obj.array (W2_triples_objects triples)]
  | W2_record.range c0 c1 w x y =>
    [fz_obj.int c0, fz_obj.int c1, fz_obj.int w, fz_obj.int x, fz_obj.int y]

/-- The objects of a well-formed `W2` array, record after record. -/
def W2_objects : List W2_record → List fz_obj
  | [] => []
  | r :: rs => r.objects ++ W2_objects rs

/-- The single-code vertical ranges of the codes `c0`, `c0 + 1`, ..., one
for each triple `(w, x, y)`: advance `w` and origin `(x, y)`. -/
def single_vranges (c0 : Int) : List (Int × Int × Int) → List pdf_vmtx
  | [] => []
  | (w, x, y) :: triples => ⟨c0, c0, x, y, w⟩ :: single_vranges (c0 + 1) triples

/-- The vertical ranges a `W2` record stands for. -/
def W2_record.ranges : W2_record → List pdf_vmtx
  | W2_record.list c0 triples => single_vranges c0 triples
  | W2_record.range c0 c1 w x y => [⟨c0, c1, x, y, w⟩]

/-- The vertical ranges a well-formed `W2` array stands for, in array
order. -/
def W2_ranges : List W2_record → List pdf_vmtx
  | [] => []
  | r :: rs => r.ranges ++ W2_ranges rs

/-- The codes `c0 + k` of a list record of `W2` are `int` values. -/
def W2_record.fits : W2_record → Bool
  | W2_record.list c0 triples =>
    decide (-2147483648 ≤ c0 ∧ c0 + triples.length ≤ 2147483648)
  | W2_record.range _ _ _ _ _ => true

/-! ## The width table -/

/-- The `Widths` branch of the widths step of `pdf_load_simple_font`: the
reading of `FirstChar` and `LastChar`, their reset and the loop over `i`. -/
def pdf_load_simple_font_widths (dict widths : Option fz_obj) (fontdesc : pdf_font_desc) :
    pdf_font_desc :=
  let first := fz_to_int (fz_dict_gets dict "FirstChar".toList)
  let last := fz_to_int (fz_dict_gets dict "LastChar".toList)
  let reset : Bool := decide (first < 0 ∨ last > 255 ∨ first > last)
  let first := if reset then 0 else first
  let last := if reset then 0 else last
  (List.range (last - first + 1).toNat).foldl
    (fun fontdesc i =>
      let wid := fz_to_int (fz_array_get widths i)
      pdf_add_hmtx fontdesc (i + first) (i + first) wid)
    fontdesc

/-- The single-code ranges `(first + i, first + i, Widths[i])` for
`i = 0 .. last - first`. -/
def widths_ranges (widths : Option fz_obj) (first last : Int) : List pdf_hmtx :=
  (List.range (last - first + 1).toNat).map
    (fun (i : Nat) => ⟨first + (i : Int), first + (i : Int), fz_to_int (fz_array_get widths i)⟩)

/-! ## The `Differences` array of a simple font -/

/-- The array write `estrings[k] = name`: a fault outside the array. -/
def estrings_write (estrings : List (Option CStr)) (k : Int) (name : CStr) :
    Option (List (Option CStr)) :=
  if 0 ≤ k ∧ k < estrings.length then some (estrings.set k.toNat (some name)) else none

/-- The body of the loop over `Differences` in `pdf_load_simple_font`, on
the state `(k, estrings)`. -/
def differences_item (item : Option fz_obj) (state : Int × List (Option CStr)) :
    Option (Int × List (Option CStr)) :=
  let k := state.1
  let estrings := state.2
  let k := if fz_is_int item then fz_to_int item else k
  let written :=
    if fz_is_name item then
      (estrings_write estrings k (fz_to_name item)).map (fun estrings => (k + 1, estrings))
    else some (k, estrings)
  match written with
  | none => none
  | some (k, estrings) =>
    let k := if k < 0 then 0 else k
    let k := if k > 255 then 255 else k
    some (k, estrings)

/-- The `Differences` step of `pdf_load_simple_font`: the table `estrings`
after the loop, `none` if a write fell outside the table. -/
def pdf_load_simple_font_differences (diff : Option fz_obj) (estrings : List (Option CStr)) :
    Option (List (Option CStr)) :=
  if fz_is_array diff then
    let n := fz_array_len diff
    ((List.range n).foldl
      (fun state i => state.bind (differences_item (fz_array_get diff i)))
      (some (0, estrings))).map Prod.snd
  else some estrings

/-- The clamp of a slot number into `[0, 255]`. -/
def clamp_slot (k : Int) : Int := if k < 0 then 0 else if k > 255 then 255 else k

/-- The writes a `Differences` array stands for, in the words of the
specification: the `j`-th name of a run that follows the integer `k0` goes
to the slot `min (clamp k0 + j, 255)`; an integer starts a new run; any
other object is skipped.  Names before the first integer form a run from
slot 0. -/
def differences_writes : List fz_obj → Int → Nat → List (Nat × CStr)
  | [], _, _ => []
  | fz_obj.int k :: rest, _, _ => differences_writes rest k 0
  | fz_obj.name s :: rest, k0, j =>
    ((min (clamp_slot k0 + j) 255).toNat, s) :: differences_writes rest k0 (j + 1)
  | fz_obj.null :: rest, k0, j => differences_writes rest k0 j
  | fz_obj.bool _ :: rest, k0, j => differences_writes rest k0 j
  | fz_obj.string _ :: rest, k0, j => differences_writes rest k0 j
  | fz_obj.array _ :: rest, k0, j => differences_writes rest k0 j
  | fz_obj.dict _ :: rest, k0, j => differences_writes rest k0 j
  | fz_obj.indirect _ _ :: rest, k0, j => differences_writes rest k0 j

/-- A name table after a list of writes, applied in order. -/
def apply_writes (estrings : List (Option CStr)) (writes : List (Nat × CStr)) :
    List (Option CStr) :=
  writes.foldl (fun e p => e.set p.1 (some p.2)) estrings

/-! ## Failures and the environment -/

/-- How a loader can end without a result: an exception (`fz_throw`), an
access outside an object (undefined behaviour), or a loop of the model
that ran out of fuel. -/
inductive fz_failure where
  | thrown (message : CStr)
  | fault
  | no_result

/-- The bytes of a font program. -/
abbrev font_data := List Nat

/-- The CID collections with a CJK substitute (`PDF_ROS_CNS`, `PDF_ROS_GB`,
`PDF_ROS_JAPAN`, `PDF_ROS_KOREA`). -/
inductive pdf_ros where
  | CNS
  | GB
  | JAPAN
  | KOREA
deriving DecidableEq, Repr

/-- The collaborators of the loader that live outside `pdf_font.c`: the
font provider, FreeType's face constructor (`new_face`, giving the family
name and the face, `none` on an error), the stream loader, the CMap
library, the encoding tables (`pdf_encoding_table` gives the table
`pdf_load_encoding` copies for an encoding name), the glyph list, and
`pdf_load_to_unicode` (giving the `to_unicode` CMap it installs, `none`
when it throws).  `font_name_size` is `sizeof font->name`. -/
structure Env where
  font_name_size : Nat
  pdf_find_builtin_font : CStr → Option font_data
  pdf_find_substitute_font : Bool → Bool → Bool → Bool → Option font_data
  pdf_find_substitute_cjk_font : pdf_ros → Bool → Option font_data
  new_face : font_data → Option (CStr × FT_Face)
  pdf_load_stream : Int → Int → Option font_data
  pdf_load_system_cmap : CStr → Option pdf_cmap
  pdf_new_identity_cmap : Int → Int → pdf_cmap
  pdf_encoding_table : CStr → Option (List (Option CStr))
  pdf_lookup_agl : CStr → Int
  pdf_lookup_agl_duplicates : Int → List CStr
  pdf_mac_roman : List (Option CStr)
  pdf_win_ansi : List (Option CStr)
  pdf_load_to_unicode : pdf_font_desc → List (Option CStr) → Option CStr → Option fz_obj →
    Option (Option pdf_cmap)

/-- Whether bit `j` of a C `int` is set: `x & (1 << j)` is non-zero. -/
def int_bit (x : Int) (j : Nat) : Bool := decide ((x / 2 ^ j) % 2 = 1)

/-- The assignment `x |= 1 << j`. -/
def int_set_bit (x : Int) (j : Nat) : Int := if int_bit x j then x else x + 2 ^ j

/-- Modelled from the spec: the flag `fixed-pitch` of the descriptor
(`PDF_FD_FIXED_PITCH`, declared in `mupdf.h`), as the position of its bit
in `Flags`. -/
def PDF_FD_FIXED_PITCH : Nat := 0

/-- Modelled from the spec: the flag `serif` (`PDF_FD_SERIF`), as the
position of its bit in `Flags`. -/
def PDF_FD_SERIF : Nat := 1

/-- Modelled from the spec: the flag `symbolic` (`PDF_FD_SYMBOLIC`), as the
position of its bit in `Flags`; the simple-font loader tests it as
`flags & 4`. -/
def PDF_FD_SYMBOLIC : Nat := 2

/-- Modelled from the spec: the flag `italic` (`PDF_FD_ITALIC`), as the
position of its bit in `Flags`. -/
def PDF_FD_ITALIC : Nat := 6

/-- Modelled from the spec: the flag `force-bold` (`PDF_FD_FORCE_BOLD`), as
the position of its bit in `Flags`. -/
def PDF_FD_FORCE_BOLD : Nat := 18

/-- The bit of FreeType's `FT_STYLE_FLAG_ITALIC` in `face->style_flags`. -/
def FT_STYLE_FLAG_ITALIC : Nat := 0

/-- The bit of FreeType's `FT_STYLE_FLAG_BOLD` in `face->style_flags`. -/
def FT_STYLE_FLAG_BOLD : Nat := 1

/-- Whether `needle` is at the start of `haystack`. -/
def starts_with : CStr → CStr → Bool
  | [], _ => true
  | _ :: _, [] => false
  | c :: needle, d :: haystack => c = d && starts_with needle haystack

/-- Whether `strstr (haystack, needle)` finds an occurrence. -/
def strstr : CStr → CStr → Bool
  | [], needle => needle.isEmpty
  | c :: haystack, needle => starts_with needle (c :: haystack) || strstr haystack needle

/-- The function `is_dynalab`. -/
def is_dynalab (name : CStr) : Bool :=
  if strstr name "HuaTian".toList then true
  else if strstr name "MingLi".toList then true
  else if starts_with "DF".toList name || strstr name "+DF".toList then true
  else if starts_with "DLC".toList name || strstr name "+DLC".toList then true
  else false

/-- The kinds of face `ft_kind` tells apart. -/
inductive font_kind where
  | UNKNOWN
  | TYPE1
  | TRUETYPE
deriving DecidableEq, Repr

/-- The function `ft_kind`. -/
def ft_kind (face : FT_Face) : font_kind :=
  let kind := face.format
  if kind = "TrueType".toList then font_kind.TRUETYPE
  else if kind = "Type 1".toList then font_kind.TYPE1
  else if kind = "CFF".toList then font_kind.TYPE1
  else if kind = "CID Type 1".toList then font_kind.TYPE1
  else font_kind.UNKNOWN

/-- The function `ft_is_bold`. -/
def ft_is_bold (face : FT_Face) : Bool := int_bit face.style_flags FT_STYLE_FLAG_BOLD

/-- The function `ft_is_italic`. -/
def ft_is_italic (face : FT_Face) : Bool := int_bit face.style_flags FT_STYLE_FLAG_ITALIC

/-! ## Loading font files -/

/-- The constructor `fz_new_font_from_memory`: a font around a new face,
or the exception of the face constructor. -/
def fz_new_font_from_memory (env : Env) (data : font_data) : Except fz_failure fz_font :=
  match env.new_face data with
  | none => throw (fz_failure.thrown "cannot load freetype font from memory".toList)
  | some (name, face) =>
    pure { name := name, ft_face := some face, ft_substitute := false, ft_bold := false,
           ft_italic := false, ft_hint := false }

/-- The function `pdf_load_builtin_font`. -/
def pdf_load_builtin_font (env : Env) (fontdesc : pdf_font_desc) (fontname : CStr) :
    Except fz_failure pdf_font_desc :=
  match env.pdf_find_builtin_font fontname with
  | none => throw (fz_failure.thrown "cannot find builtin font".toList)
  | some data => do
    let font ← fz_new_font_from_memory env data
    let fontdesc := { fontdesc with font := some font }
    if fontname = "Symbol".toList ∨ fontname = "ZapfDingbats".toList then
      pure { fontdesc with flags := int_set_bit fontdesc.flags PDF_FD_SYMBOLIC }
    else pure fontdesc

/-- The function `pdf_load_substitute_font`. -/
def pdf_load_substitute_font (env : Env) (fontdesc : pdf_font_desc)
    (mono serif bold italic : Bool) : Except fz_failure pdf_font_desc :=
  match env.pdf_find_substitute_font mono serif bold italic with
  | none => throw (fz_failure.thrown "cannot find substitute font".toList)
  | some data => do
    let font ← fz_new_font_from_memory env data
    match font.ft_face with
    | none => throw fz_failure.fault
    | some face =>
      pure { fontdesc with font := some { font with
        ft_substitute := true,
        ft_bold := bold && !ft_is_bold face,
        ft_italic := italic && !ft_is_italic face } }

/-- The function `pdf_load_substitute_cjk_font`. -/
def pdf_load_substitute_cjk_font (env : Env) (fontdesc : pdf_font_desc) (ros : pdf_ros)
    (serif : Bool) : Except fz_failure pdf_font_desc :=
  match env.pdf_find_substitute_cjk_font ros serif with
  | none => throw (fz_failure.thrown "cannot find builtin CJK font".toList)
  | some data => do
    let font ← fz_new_font_from_memory env data
    pure { fontdesc with font := some { font with ft_substitute := true } }

/-- The function `pdf_load_system_font`; `collection` is `none` for
`NULL`. -/
def pdf_load_system_font (env : Env) (fontdesc : pdf_font_desc) (fontname : CStr)
    (collection : Option CStr) : Except fz_failure pdf_font_desc :=
  let bold := false
  let italic := false
  let serif := false
  let mono := false
  let bold := if strstr fontname "Bold".toList then true else bold
  let italic := if strstr fontname "Italic".toList then true else italic
  let italic := if strstr fontname "Oblique".toList then true else italic
  let mono := if int_bit fontdesc.flags PDF_FD_FIXED_PITCH then true else mono
  let serif := if int_bit fontdesc.flags PDF_FD_SERIF then true else serif
  let italic := if int_bit fontdesc.flags PDF_FD_ITALIC then true else italic
  let bold := if int_bit fontdesc.flags PDF_FD_FORCE_BOLD then true else bold
  match collection with
  | some collection =>
    if collection = "Adobe-CNS1".toList then
      pdf_load_substitute_cjk_font env fontdesc pdf_ros.CNS serif
    else if collection = "Adobe-GB1".toList then
      pdf_load_substitute_cjk_font env fontdesc pdf_ros.GB serif
    else if collection = "Adobe-Japan1".toList then
      pdf_load_substitute_cjk_font env fontdesc pdf_ros.JAPAN serif
    else if collection = "Adobe-Korea1".toList then
      pdf_load_substitute_cjk_font env fontdesc pdf_ros.KOREA serif
    else throw (fz_failure.thrown "unknown cid collection".toList)
  | none => pdf_load_substitute_font env fontdesc mono serif bold italic

/-- The function `pdf_load_embedded_font`, for the stream reference
`stmref`. -/
def pdf_load_embedded_font (env : Env) (fontdesc : pdf_font_desc) (stmref : Option fz_obj) :
    Except fz_failure pdf_font_desc :=
  let numgen : Int × Int :=
    match stmref with
    | some (fz_obj.indirect num gen) => (num, gen)
    | _ => (0, 0)
  match env.pdf_load_stream numgen.1 numgen.2 with
  | none => throw (fz_failure.thrown "cannot load font stream".toList)
  | some buf =>
    match fz_new_font_from_memory env buf with
    | Except.error (fz_failure.thrown _) =>
      throw (fz_failure.thrown "cannot load embedded font".toList)
    | Except.error e => throw e
    | Except.ok font => pure { fontdesc with font := some font, is_embedded := true }

/-- The function `pdf_load_font_descriptor`.  The comparison
`origname != fontname` is one of pointers: it holds when
`clean_font_name` returned an entry of its table. -/
def pdf_load_font_descriptor (env : Env) (fontdesc : pdf_font_desc) (dict : Option fz_obj)
    (collection : Option CStr) (basefont : CStr) : Except fz_failure pdf_font_desc :=
  let origname :=
    if ¬ (',' ∈ basefont) ∨ '+' ∈ basefont then
      fz_to_name (fz_dict_gets dict "FontName".toList)
    else basefont
  match clean_font_name_ref origname with
  | none => throw fz_failure.no_result
  | some fontname_ref =>
    let fontname := fontname_ref.deref origname
    let fontdesc := { fontdesc with
      flags := fz_to_int (fz_dict_gets dict "Flags".toList),
      missing_width := fz_to_real (fz_dict_gets dict "MissingWidth".toList) }
    let obj1 := fz_dict_gets dict "FontFile".toList
    let obj2 := fz_dict_gets dict "FontFile2".toList
    let obj3 := fz_dict_gets dict "FontFile3".toList
    let obj := if obj1.isSome then obj1 else if obj2.isSome then obj2 else obj3
    let load_other : Except fz_failure pdf_font_desc :=
      if fontname_ref ≠ name_ref.argument then pdf_load_builtin_font env fontdesc fontname
      else pdf_load_system_font env fontdesc fontname collection
    let loaded : Except fz_failure pdf_font_desc :=
      if fz_is_indirect obj then
        match pdf_load_embedded_font env fontdesc obj with
        | Except.ok fontdesc => Except.ok fontdesc
        | Except.error (fz_failure.thrown _) => load_other
        | Except.error e => Except.error e
      else load_other
    match loaded with
    | Except.error e => Except.error e
    | Except.ok fontdesc =>
      match fontdesc.font with
      | none => throw fz_failure.fault
      | some font =>
        let font := { font with name := fontname.take (env.font_name_size - 1) }
        match font.ft_face with
        | none => throw fz_failure.fault
        | some face =>
          let font :=
            if ft_kind face = font_kind.TRUETYPE ∧ (face.is_tricky ∨ is_dynalab font.name) then
              { font with ft_hint := true }
            else font
          pure { fontdesc with font := some font }

/-! ## The simple-font loader -/

/-- The table `cp936fonts` of `pdf_load_simple_font`, as pairs of a
`BaseFont` byte string and the name that replaces it. -/
def cp936fonts : List (CStr × CStr) :=
  [ ([Char.ofNat 0xCB, Char.ofNat 0xCE, Char.ofNat 0xCC, Char.ofNat 0xE5],
      "SimSun,Regular".toList),
    ([Char.ofNat 0xBA, Char.ofNat 0xDA, Char.ofNat 0xCC, Char.ofNat 0xE5],
      "SimHei,Regular".toList),
    ([Char.ofNat 0xBF, Char.ofNat 0xAC, Char.ofNat 0xCC, Char.ofNat 0xE5] ++ "_GB2312".toList,
      "SimKai,Regular".toList),
    ([Char.ofNat 0xB7, Char.ofNat 0xC2, Char.ofNat 0xCB, Char.ofNat 0xCE] ++ "_GB2312".toList,
      "SimFang,Regular".toList),
    ([Char.ofNat 0xC1, Char.ofNat 0xA5, Char.ofNat 0xCA, Char.ofNat 0xE9],
      "SimLi,Regular".toList) ]

/-- The "Load font file" step of `pdf_load_simple_font`. -/
def pdf_load_simple_font_file (env : Env) (dict : Option fz_obj) :
    Except fz_failure pdf_font_desc :=
  let basefont := fz_to_name (fz_dict_gets dict "BaseFont".toList)
  match clean_font_name basefont with
  | none => throw fz_failure.no_result
  | some fontname =>
    let fontdesc := pdf_new_font_desc
    let descriptor := fz_dict_gets dict "FontDescriptor".toList
    if descriptor.isSome then pdf_load_font_descriptor env fontdesc descriptor none basefont
    else pdf_load_builtin_font env fontdesc fontname

/-- The test for the cp936 workaround in `pdf_load_simple_font`: the entry
`cp936fonts[i + 1]` when the workaround is taken, `none` when it is not. -/
def cp936_workaround (fontdesc : pdf_font_desc) (dict : Option fz_obj) :
    Except fz_failure (Option CStr) :=
  match fontdesc.font with
  | none => throw fz_failure.fault
  | some font =>
    let basefont := fz_to_name (fz_dict_gets dict "BaseFont".toList)
    let descriptor := fz_dict_gets dict "FontDescriptor".toList
    if font.name = [] ∧
        (fz_dict_gets dict "ToUnicode".toList).isNone ∧
        fz_to_name (fz_dict_gets dict "Encoding".toList) = "WinAnsiEncoding".toList ∧
        fz_to_int (fz_dict_gets descriptor "Flags".toList) = 4 then
      pure ((cp936fonts.find? (fun entry => entry.1 = basefont)).map (fun entry => entry.2))
    else pure none

/-- The workaround branch of `pdf_load_simple_font`, up to
`goto skip_encoding`. -/
def pdf_load_simple_font_cp936 (env : Env) (dict : Option fz_obj) (name : CStr) :
    Except fz_failure pdf_font_desc :=
  let descriptor := fz_dict_gets dict "FontDescriptor".toList
  let fontdesc := pdf_new_font_desc
  match pdf_load_font_descriptor env fontdesc descriptor (some "Adobe-GB1".toList) name with
  | Except.error e => Except.error e
  | Except.ok fontdesc =>
    match env.pdf_load_system_cmap "GBK-EUC-H".toList with
    | none => throw (fz_failure.thrown "cannot load system cmap".toList)
    | some encoding =>
      let fontdesc := { fontdesc with encoding := some encoding }
      match env.pdf_load_system_cmap "Adobe-GB1-UCS2".toList with
      | none => throw (fz_failure.thrown "cannot load system cmap".toList)
      | some to_unicode =>
        let fontdesc := { fontdesc with to_unicode := some to_unicode }
        match env.pdf_load_system_cmap "Adobe-GB1-UCS2".toList with
        | none => throw (fz_failure.thrown "cannot load system cmap".toList)
        | some to_ttf_cmap => pure { fontdesc with to_ttf_cmap := some to_ttf_cmap }

/-- The choice of a charmap in `pdf_load_simple_font`: the position of the
chosen charmap in `face->charmaps`, `none` for `NULL`. -/
def select_charmap (kind : font_kind) (charmaps : List FT_CharMap) : Option Nat :=
  let cmap : Option Nat := if charmaps.length > 0 then some 0 else none
  (List.range charmaps.length).foldl
    (fun cmap i =>
      match charmaps.get? i with
      | none => cmap
      | some test =>
        let cmap :=
          if kind = font_kind.TYPE1 then
            if test.platform_id = 7 then some i else cmap
          else cmap
        if kind = font_kind.TRUETYPE then
          let cmap := if test.platform_id = 1 ∧ test.encoding_id = 0 then some i else cmap
          if test.platform_id = 3 ∧ test.encoding_id = 1 then some i else cmap
        else cmap)
    cmap

/-- The FreeType call `FT_Set_Charmap (face, cmap)`: its result and the
face after it. -/
def FT_Set_Charmap (face : FT_Face) (cmap : Nat) : Int × FT_Face :=
  let fterr := face.set_charmap_error cmap
  (fterr, if fterr = 0 then { face with charmap := some cmap } else face)

/-- The FreeType query `FT_Get_Name_Index (face, name)`. -/
def FT_Get_Name_Index (face : FT_Face) (name : CStr) : Nat := face.name_index name

/-- Modelled from the spec: `load_encoding (out[256], name)`
(`pdf_load_encoding`) copies the 256 names of a known encoding into the
table and leaves the table alone for any other name. -/
def pdf_load_encoding (env : Env) (estrings : List (Option CStr)) (encoding : CStr) :
    List (Option CStr) :=
  match env.pdf_encoding_table encoding with
  | some bstrings => (List.range 256).map (fun i => bstrings.getD i none)
  | none => estrings

/-- The "Encoding" step of `pdf_load_simple_font` that fills `estrings`. -/
def pdf_load_simple_font_estrings (env : Env) (dict : Option fz_obj) (fontdesc : pdf_font_desc)
    (symbolic : Bool) : Except fz_failure (List (Option CStr)) :=
  let estrings : List (Option CStr) := List.replicate 256 none
  let encoding := fz_dict_gets dict "Encoding".toList
  if encoding.isSome then
    let estrings :=
      if fz_is_name encoding then pdf_load_encoding env estrings (fz_to_name encoding)
      else estrings
    if fz_is_dict encoding then
      let base := fz_dict_gets encoding "BaseEncoding".toList
      let estrings :=
        if fz_is_name base then pdf_load_encoding env estrings (fz_to_name base)
        else if !fontdesc.is_embedded && !symbolic then
          pdf_load_encoding env estrings "StandardEncoding".toList
        else estrings
      let diff := fz_dict_gets encoding "Differences".toList
      match pdf_load_simple_font_differences diff estrings with
      | none => throw fz_failure.fault
      | some estrings => pure estrings
    else pure estrings
  else pure estrings

/-- The conversion of an `int` to `unsigned short` on a store into
`etable`. -/
def to_ushort (x : Int) : Nat := (x % 65536).toNat

/-- The function `lookup_mre_code`. -/
def lookup_mre_code (env : Env) (name : CStr) : Int :=
  match (List.range 256).find? (fun i => decide (env.pdf_mac_roman.getD i none = some name)) with
  | some i => i
  | none => -1

/-- The loop over `dupnames` in the Type 1 branch; `cur` is `etable[i]`. -/
def etable_agl_duplicates (face : FT_Face) : List CStr → Nat → Nat
  | [], cur => cur
  | name :: dupnames, _ =>
    let cur := to_ushort (FT_Get_Name_Index face name)
    if cur ≠ 0 then cur else etable_agl_duplicates face dupnames cur

/-- One slot of `etable` after the Type 1 loop. -/
def etable_type1 (env : Env) (face : FT_Face) (estring : Option CStr) (cur : Nat) : Nat :=
  match estring with
  | none => cur
  | some s =>
    let cur := to_ushort (FT_Get_Name_Index face s)
    if cur = 0 then
      let aglcode := env.pdf_lookup_agl s
      let dupnames := env.pdf_lookup_agl_duplicates aglcode
      etable_agl_duplicates face dupnames cur
    else cur

/-- One slot of `etable` after the TrueType loops. -/
def etable_truetype (env : Env) (face : FT_Face) (symbolic : Bool) (i : Nat)
    (estring : Option CStr) (cur : Nat) : Nat :=
  let platform : Option Nat :=
    match face.charmap with
    | none => none
    | some c => (face.charmaps.get? c).map (fun cm => cm.platform_id)
  match estring with
  | none => cur
  | some s =>
    if !symbolic && platform = some 3 then
      let aglcode := env.pdf_lookup_agl s
      if aglcode = 0 then to_ushort (FT_Get_Name_Index face s)
      else to_ushort (ft_char_index face aglcode)
    else if !symbolic && platform = some 1 then
      let k := lookup_mre_code env s
      if k ≤ 0 then to_ushort (FT_Get_Name_Index face s)
      else to_ushort (ft_char_index face k)
    else
      let cur := to_ushort (FT_Get_Name_Index face s)
      if cur = 0 then to_ushort (ft_char_index face i) else cur

/-- The table `etable` of `pdf_load_simple_font`: the builtin encoding,
then the encoding by glyph name. -/
def simple_font_etable (env : Env) (face : FT_Face) (kind : font_kind) (symbolic : Bool)
    (estrings : List (Option CStr)) : List Nat :=
  let etable := (List.range 256).map (fun (i : Nat) => to_ushort (ft_char_index face i))
  let etable :=
    if kind = font_kind.TYPE1 then
      (List.range 256).map
        (fun i => etable_type1 env face (estrings.getD i none) (etable.getD i 0))
    else etable
  if kind = font_kind.TRUETYPE then
    (List.range 256).map
      (fun i => etable_truetype env face symbolic i (estrings.getD i none) (etable.getD i 0))
  else etable

/-- One slot of `estrings` after the loop that reverses glyph names. -/
def reverse_glyph_name (env : Env) (face : FT_Face) (i : Nat) (gid : Nat)
    (estring : Option CStr) : Option CStr :=
  if gid ≠ 0 ∧ estring = none then
    if face.has_glyph_names then
      let ebuffer := (face.glyph_name gid).2
      if ebuffer ≠ [] then some ebuffer else estring
    else env.pdf_win_ansi.getD i none
  else estring

/-- The "Encoding" part of `pdf_load_simple_font`, from the choice of the
charmap to `pdf_load_to_unicode`. -/
def pdf_load_simple_font_encoding (env : Env) (dict : Option fz_obj) (fontdesc : pdf_font_desc) :
    Except fz_failure pdf_font_desc :=
  match fontdesc.font with
  | none => throw fz_failure.fault
  | some font =>
    match font.ft_face with
    | none => throw fz_failure.fault
    | some face =>
      let kind := ft_kind face
      let symbolic := int_bit fontdesc.flags 2
      let cmap := select_charmap kind face.charmaps
      let face :=
        match cmap with
        | some cmap => (FT_Set_Charmap face cmap).2
        | none => face
      match pdf_load_simple_font_estrings env dict fontdesc symbolic with
      | Except.error e => Except.error e
      | Except.ok estrings =>
        let etable := simple_font_etable env face kind symbolic estrings
        let estrings := (List.range 256).map
          (fun i => reverse_glyph_name env face i (etable.getD i 0) (estrings.getD i none))
        let fontdesc := { fontdesc with
          font := some { font with ft_face := some face },
          encoding := some (env.pdf_new_identity_cmap 0 1),
          cid_to_gid_len := 256,
          cid_to_gid := some etable }
        match env.pdf_load_to_unicode fontdesc estrings none
            (fz_dict_gets dict "ToUnicode".toList) with
        | none => throw (fz_failure.thrown "cannot load to_unicode".toList)
        | some to_unicode => pure { fontdesc with to_unicode := to_unicode }

/-- The function `ft_width`, for a descriptor whose font has the face
`face`. -/
def ft_width (face : FT_Face) (fontdesc : pdf_font_desc) (cid : Int) : Option Int :=
  match ft_cid_to_gid face fontdesc cid with
  | none => none
  | some gid => if face.load_glyph_error gid ≠ 0 then some 0 else some (face.advance_x gid)

/-- Modelled from the spec: `end_hmtx` (`pdf_end_hmtx`) sorts the ranges
by `lo`. -/
def pdf_end_hmtx (fontdesc : pdf_font_desc) : pdf_font_desc :=
  { fontdesc with hmtx := fontdesc.hmtx.insertionSort (fun a b => a.lo ≤ b.lo) }

/-- The body of the loop of `pdf_load_simple_font` that takes the widths
from the face: `pdf_add_hmtx (ctx, fontdesc, i, i, ft_width (ctx, fontdesc, i))`. -/
def face_width_step (face : FT_Face) (state : Except fz_failure pdf_font_desc) (i : Nat) :
    Except fz_failure pdf_font_desc :=
  match state with
  | Except.error e => Except.error e
  | Except.ok fontdesc =>
    match ft_width face fontdesc i with
    | none => Except.error fz_failure.fault
    | some w => Except.ok (pdf_add_hmtx fontdesc i i w)

/-- The "Widths" part of `pdf_load_simple_font`, from the label
`skip_encoding` on.  The call
`pdf_set_default_hmtx (fontdesc, fontdesc->missing_width)` converts the
`float` to the `int` parameter; a `float` outside the `int` range makes
the conversion undefined, a fault here. -/
def pdf_load_simple_font_metrics (dict : Option fz_obj) (fontdesc : pdf_font_desc) :
    Except fz_failure pdf_font_desc :=
  match fontdesc.font with
  | none => throw fz_failure.fault
  | some font =>
    match font.ft_face with
    | none => throw fz_failure.fault
    | some face =>
      match float_to_int fontdesc.missing_width with
      | none => throw fz_failure.fault
      | some missing_width =>
        let fontdesc := pdf_set_default_hmtx fontdesc missing_width
        let widths := fz_dict_gets dict "Widths".toList
        let loaded : Except fz_failure pdf_font_desc :=
          if widths.isSome then pure (pdf_load_simple_font_widths dict widths fontdesc)
          else
            (List.range 256).foldl (face_width_step face) (Except.ok fontdesc)
        match loaded with
        | Except.error e => Except.error e
        | Except.ok fontdesc => Except.ok (pdf_end_hmtx fontdesc)

/-- The body of the `fz_try` block of `pdf_load_simple_font`. -/
def pdf_load_simple_font_body (env : Env) (dict : Option fz_obj) :
    Except fz_failure pdf_font_desc :=
  match pdf_load_simple_font_file env dict with
  | Except.error e => Except.error e
  | Except.ok fontdesc =>
    match cp936_workaround fontdesc dict with
    | Except.error e => Except.error e
    | Except.ok workaround =>
      let encoded : Except fz_failure pdf_font_desc :=
        match workaround with
        | some name => pdf_load_simple_font_cp936 env dict name
        | none => pdf_load_simple_font_encoding env dict fontdesc
      match encoded with
      | Except.error e => Except.error e
      | Except.ok fontdesc => pdf_load_simple_font_metrics dict fontdesc

/-- The function `pdf_load_simple_font`: the body, with an exception
caught and thrown again as "cannot load simple font". -/
def pdf_load_simple_font (env : Env) (dict : Option fz_obj) :
    Except fz_failure pdf_font_desc :=
  match pdf_load_simple_font_body env dict with
  | Except.error (fz_failure.thrown _) =>
    Except.error (fz_failure.thrown "cannot load simple font".toList)
  | r => r

/-- Whether `pdf_load_simple_font` takes the cp936 workaround for a
dictionary: the test `cp936_workaround` on the descriptor the "Load font
file" step gives. -/
def pdf_load_simple_font_workaround (env : Env) (dict : Option fz_obj) :
    Except fz_failure (Option CStr) :=
  match pdf_load_simple_font_file env dict with
  | Except.error e => Except.error e
  | Except.ok fontdesc => cp936_workaround fontdesc dict

/-- Two descriptors with the same glyph table: the same `cid_to_gid_len`,
`cid_to_gid` and `to_ttf_cmap`. -/
def same_glyph_table (a b : pdf_font_desc) : Prop :=
  a.cid_to_gid_len = b.cid_to_gid_len ∧ a.cid_to_gid = b.cid_to_gid ∧
    a.to_ttf_cmap = b.to_ttf_cmap

/-- The face of `pdf_load_simple_font` once the charmap is chosen: the
face after `FT_Set_Charmap (face, cmap)`, the face as it was when no
charmap was found. -/
def simple_font_face (face : FT_Face) : FT_Face :=
  match select_charmap (ft_kind face) face.charmaps with
  | some cmap => (FT_Set_Charmap face cmap).2
  | none => face

/-- The name `pdf_load_font_descriptor` chooses (`origname`): `FontName`
when `BaseFont` has no comma or has a `+`, else `BaseFont`. -/
def descriptor_origname (dict : Option fz_obj) (basefont : CStr) : CStr :=
  if ¬ (',' ∈ basefont) ∨ '+' ∈ basefont then
    fz_to_name (fz_dict_gets dict "FontName".toList)
  else basefont

/-- The font file `pdf_load_font_descriptor` looks at (`obj`): the first of
`FontFile`, `FontFile2` and `FontFile3` that is present. -/
def descriptor_font_file (dict : Option fz_obj) : Option fz_obj :=
  let obj1 := fz_dict_gets dict "FontFile".toList
  let obj2 := fz_dict_gets dict "FontFile2".toList
  let obj3 := fz_dict_gets dict "FontFile3".toList
  if obj1.isSome then obj1 else if obj2.isSome then obj2 else obj3

/-- The descriptor after `pdf_load_font_descriptor` has read the flags and
the metrics, before it loads a font file. -/
def descriptor_with_flags (fontdesc : pdf_font_desc) (dict : Option fz_obj) : pdf_font_desc :=
  { fontdesc with
    flags := fz_to_int (fz_dict_gets dict "Flags".toList),
    missing_width := fz_to_real (fz_dict_gets dict "MissingWidth".toList) }

/-- The end of `pdf_load_font_descriptor`, from `fz_strlcpy` on, applied
to the outcome of the font file loaders. -/
def pdf_load_font_descriptor_finish (env : Env) (fontname : CStr)
    (loaded : Except fz_failure pdf_font_desc) : Except fz_failure pdf_font_desc :=
  match loaded with
  | Except.error e => Except.error e
  | Except.ok fontdesc =>
    match fontdesc.font with
    | none => throw fz_failure.fault
    | some font =>
      let font := { font with name := fontname.take (env.font_name_size - 1) }
      match font.ft_face with
      | none => throw fz_failure.fault
      | some face =>
        let font :=
          if ft_kind face = font_kind.TRUETYPE ∧ (face.is_tricky ∨ is_dynalab font.name) then
            { font with ft_hint := true }
          else font
        pure { fontdesc with font := some font }

/-- A name equals an entry of `base_font_names` once the spaces are
deleted from both. -/
def in_base_font_names (name : CStr) : Prop :=
  ∃ row ∈ base_font_names, ∃ e ∈ row, delete_spaces e = delete_spaces name

/-- The body of the loop of `select_charmap`, as a function of the kind of
the face, its charmaps, the charmap chosen so far and the position `i`. -/
def select_charmap_step (kind : font_kind) (charmaps : List FT_CharMap) (cmap : Option Nat)
    (i : Nat) : Option Nat :=
  match charmaps.get? i with
  | none => cmap
  | some test =>
    let cmap :=
      if kind = font_kind.TYPE1 then
        if test.platform_id = 7 then some i else cmap
      else cmap
    if kind = font_kind.TRUETYPE then
      let cmap := if test.platform_id = 1 ∧ test.encoding_id = 0 then some i else cmap
      if test.platform_id = 3 ∧ test.encoding_id = 1 then some i else cmap
    else cmap

/-- Whether a charmap is a (platform 1, encoding 0) MacRoman charmap. -/
def is_mac_roman_charmap (c : FT_CharMap) : Bool :=
  decide (c.platform_id = 1 ∧ c.encoding_id = 0)

/-- Whether a charmap is a (platform 3, encoding 1) Microsoft Unicode
charmap. -/
def is_ms_unicode_charmap (c : FT_CharMap) : Bool :=
  decide (c.platform_id = 3 ∧ c.encoding_id = 1)

/-- Position `i` of a charmap list holds a MacRoman or a Microsoft Unicode
charmap. -/
def charmap_hit (charmaps : List FT_CharMap) (i : Nat) : Prop :=
  ∃ c, charmaps.get? i = some c ∧
    (is_mac_roman_charmap c = true ∨ is_ms_unicode_charmap c = true)

/-! ## Sample inputs -/

/-- A charmap list with the Microsoft Unicode charmap before the MacRoman
one. -/
def charmaps_unicode_first : List FT_CharMap := [⟨0, 3⟩, ⟨3, 1⟩, ⟨1, 0⟩]

/-- A charmap list with the MacRoman charmap before the Microsoft Unicode
one, the order of a sorted `cmap` table. -/
def charmaps_mac_first : List FT_CharMap := [⟨0, 3⟩, ⟨1, 0⟩, ⟨3, 1⟩]

/-- A face whose only charmap gives glyph 5 to the code `0x22ef`, glyph 9 to
the code `0x41` and no glyph to any other code. -/
def face_22ef : FT_Face where
  format := "TrueType".toList
  style_flags := 0
  charmaps := [⟨3, 1⟩]
  charmap := some 0
  char_index := fun _ code => if code = 0x22ef then 5 else if code = 0x41 then 9 else 0
  set_charmap_error := fun _ => 0
  name_index := fun _ => 0
  has_glyph_names := false
  glyph_name := fun _ => (0, [])
  load_glyph_error := fun _ => 0
  advance_x := fun gid => 100 * gid
  is_tricky := false

/-- The font around `face_22ef`. -/
def font_22ef : fz_font where
  name := []
  ft_face := some face_22ef
  ft_substitute := false
  ft_bold := false
  ft_italic := false
  ft_hint := false

/-- A font without a FreeType face (a Type 3 font). -/
def font_noface : fz_font := { font_22ef with ft_face := none }

/-- A CMap sending every code `c` to `c + 0x40`. -/
def cmap_shift : pdf_cmap where
  cmap_name := "Shift".toList
  wmode := 0
  lookup := fun c => c + 0x40

/-- A descriptor with a face, no `to_ttf_cmap` and the two-entry
`cid_to_gid` array `[7, 9]`. -/
def desc_table : pdf_font_desc :=
  { pdf_new_font_desc with font := some font_22ef, cid_to_gid_len := 2, cid_to_gid := some [7, 9] }

/-- The descriptor `desc_table` with `to_ttf_cmap` set as well. -/
def desc_ttf : pdf_font_desc := { desc_table with to_ttf_cmap := some cmap_shift }

/-- A descriptor with a face and neither `to_ttf_cmap` nor `cid_to_gid`. -/
def desc_identity : pdf_font_desc := { pdf_new_font_desc with font := some font_22ef }

/-- A descriptor whose font has no face. -/
def desc_noface : pdf_font_desc := { desc_table with font := some font_noface }

/-- A font dictionary with an unknown `Subtype` that has both `CharProcs`
and `DescendantFonts`. -/
def dict_unknown_subtype : fz_obj :=
  fz_obj.dict [("Subtype".toList, fz_obj.name "Type42".toList),
    ("DescendantFonts".toList, fz_obj.array []),
    ("CharProcs".toList, fz_obj.dict [])]

/-- The CID font dictionary `DW 500, W [1 5 600 10 [700 800 900]]`. -/
def dict_W_sample : fz_obj :=
  fz_obj.dict [("DW".toList, fz_obj.int 500),
    ("W".toList, fz_obj.array [fz_obj.int 1, fz_obj.int 5, fz_obj.int 600, fz_obj.int 10,
      fz_obj.array [fz_obj.int 700, fz_obj.int 800, fz_obj.int 900]])]

/-- A simple font dictionary with `FirstChar 70`, `LastChar 65`. -/
def dict_first_after_last : fz_obj :=
  fz_obj.dict [("FirstChar".toList, fz_obj.int 70), ("LastChar".toList, fz_obj.int 65)]

/-- A simple font dictionary with `FirstChar 0`, `LastChar 0`. -/
def dict_first_last_zero : fz_obj :=
  fz_obj.dict [("FirstChar".toList, fz_obj.int 0), ("LastChar".toList, fz_obj.int 0)]

/-- The `Widths` array `[500 600]`. -/
def widths_sample : fz_obj := fz_obj.array [fz_obj.int 500, fz_obj.int 600]

/-- The `Differences` array `[32 /space 65 /A /B /C]`. -/
def differences_sample : fz_obj :=
  fz_obj.array [fz_obj.int 32, fz_obj.name "space".toList, fz_obj.int 65,
    fz_obj.name "A".toList, fz_obj.name "B".toList, fz_obj.name "C".toList]

/-- The `Differences` array `[300 /A /B -5 /C]`, with slots outside
`[0, 255]`. -/
def differences_outside : fz_obj :=
  fz_obj.array [fz_obj.int 300, fz_obj.name "A".toList, fz_obj.name "B".toList,
    fz_obj.int (-5), fz_obj.name "C".toList]

/-- The empty table of 256 names. -/
def estrings_empty : List (Option CStr) := List.replicate 256 none

/-- A provider with one builtin font (`Helvetica`), one substitute and one
CJK substitute, all with the face `face_22ef`; every system CMap is the
identity; no encoding table, glyph list or `ToUnicode` data. -/
def env_sample : Env where
  font_name_size := 32
  pdf_find_builtin_font := fun name => if name = "Helvetica".toList then some [1] else none
  pdf_find_substitute_font := fun _ _ _ _ => some [2]
  pdf_find_substitute_cjk_font := fun _ _ => some [3]
  new_face := fun _ => some ("Sample".toList, face_22ef)
  pdf_load_stream := fun _ _ => none
  pdf_load_system_cmap := fun name => some ⟨name, 0, fun c => c⟩
  pdf_new_identity_cmap := fun wmode _ => ⟨"Identity".toList, wmode, fun c => c⟩
  pdf_encoding_table := fun _ => none
  pdf_lookup_agl := fun _ => 0
  pdf_lookup_agl_duplicates := fun _ => []
  pdf_mac_roman := []
  pdf_win_ansi := []
  pdf_load_to_unicode := fun _ _ _ _ => some none

/-- The simple font `Helvetica` without a descriptor, with two widths. -/
def dict_helvetica : fz_obj :=
  fz_obj.dict [("Subtype".toList, fz_obj.name "Type1".toList),
    ("BaseFont".toList, fz_obj.name "Helvetica".toList),
    ("FirstChar".toList, fz_obj.int 65), ("LastChar".toList, fz_obj.int 66),
    ("Widths".toList, fz_obj.array [fz_obj.int 667, fz_obj.int 667])]

/-- A simple font a producer mis-encoded: `BaseFont` is the cp936 byte
string `CB CE CC E5`, `Encoding` is `WinAnsiEncoding`, the descriptor has
`Flags 4` and no `FontName`, and there is no `ToUnicode`. -/
def dict_cp936 : fz_obj :=
  fz_obj.dict [("Subtype".toList, fz_obj.name "TrueType".toList),
    ("BaseFont".toList,
      fz_obj.name [Char.ofNat 0xCB, Char.ofNat 0xCE, Char.ofNat 0xCC, Char.ofNat 0xE5]),
    ("Encoding".toList, fz_obj.name "WinAnsiEncoding".toList),
    ("FontDescriptor".toList, fz_obj.dict [("Flags".toList, fz_obj.int 4)]),
    ("FirstChar".toList, fz_obj.int 0), ("LastChar".toList, fz_obj.int 1),
    ("Widths".toList, fz_obj.array [fz_obj.int 500, fz_obj.int 600])]

/-- The simple font `Helvetica` with a descriptor whose `MissingWidth` is
`16777217`, a number no `float` holds. -/
def dict_missing_width : fz_obj :=
  fz_obj.dict [("Subtype".toList, fz_obj.name "Type1".toList),
    ("BaseFont".toList, fz_obj.name "Helvetica".toList),
    ("FontDescriptor".toList, fz_obj.dict [("FontName".toList, fz_obj.name "Helvetica".toList),
      ("Flags".toList, fz_obj.int 32), ("MissingWidth".toList, fz_obj.int 16777217)]),
    ("FirstChar".toList, fz_obj.int 65), ("LastChar".toList, fz_obj.int 65),
    ("Widths".toList, fz_obj.array [fz_obj.int 667])]

/-- The provider `env_sample` without a non-CJK substitute font. -/
def env_no_substitute : Env :=
  { env_sample with pdf_find_substitute_font := fun _ _ _ _ => none }

/-- A font descriptor with `FontName /Helvetica` and no font file. -/
def descriptor_helvetica : fz_obj :=
  fz_obj.dict [("FontName".toList, fz_obj.name "Helvetica".toList),
    ("Flags".toList, fz_obj.int 32)]

/-- A font descriptor with `FontName /Arial` and no font file. -/
def descriptor_arial : fz_obj :=
  fz_obj.dict [("FontName".toList, fz_obj.name "Arial".toList),
    ("Flags".toList, fz_obj.int 32)]

/-- A descriptor with the encoding `Identity-V` (writing mode 1). -/
def desc_vertical : pdf_font_desc :=
  { pdf_new_font_desc with
    font := some font_22ef,
    encoding := some ⟨"Identity-V".toList, 1, fun c => c⟩ }

/-- The CID font dictionary `DW2 [-120 -1000], W2 [1 3 -1000 500 -880]`. -/
def dict_W2_sample : fz_obj :=
  fz_obj.dict [("DW2".toList, fz_obj.array [fz_obj.int (-120), fz_obj.int (-1000)]),
    ("W2".toList, fz_obj.array [fz_obj.int 1, fz_obj.int 3, fz_obj.int (-1000),
      fz_obj.int 500, fz_obj.int (-880)])]

/-- A CID font dictionary whose `W` and `W2` arrays end in the middle of a
record and hold a name where a number belongs. -/
def dict_W_truncated : fz_obj :=
  fz_obj.dict [("W".toList, fz_obj.array [fz_obj.int 7, fz_obj.name "x".toList,
      fz_obj.int 600, fz_obj.int 9]),
    ("W2".toList, fz_obj.array [fz_obj.int 7, fz_obj.array [fz_obj.int 1, fz_obj.int 2],
      fz_obj.int 8, fz_obj.int 9])]

theorem array_read_in_range (a : List Nat) (i : Int) (h0 : 0 ≤ i) (h1 : i < a.length) :
    array_read a i = some ((a.getD i.toNat 0 : Nat) : Int) := by
  unfold array_read
  rw [if_pos ⟨h0, h1⟩]

theorem array_read_out_of_range (a : List Nat) (i : Int) (h : i < 0 ∨ (a.length : Int) ≤ i) :
    array_read a i = none := by
  unfold array_read
  rw [if_neg]
  omega

/-- C1: with a face, no `to_ttf_cmap` and the `cid_to_gid` array `[7, 9]` of
length 2, `pdf_font_cid_to_gid` returns the array entry for the CIDs 0 and 1
and reads outside the array (a fault, not the value 0) for the CIDs 2 and
-1: the array read of `ft_cid_to_gid` has no bounds check. -/
theorem pdf_font_cid_to_gid_unchecked_read :
    table_well_formed desc_table ∧ desc_table.cid_to_gid_len = 2 ∧
    pdf_font_cid_to_gid desc_table 0 = some 7 ∧
    pdf_font_cid_to_gid desc_table 1 = some 9 ∧
    pdf_font_cid_to_gid desc_table 2 = none ∧
    pdf_font_cid_to_gid desc_table (-1) = none ∧
    pdf_font_cid_to_gid desc_table 2 ≠ some 0 := by
  refine ⟨?_, rfl, by decide, by decide, by decide, by decide, by decide⟩
  intro arr h
  have : arr = [7, 9] := by
    have h2 : desc_table.cid_to_gid = some [7, 9] := rfl
    rw [h2] at h
    exact (Option.some.inj h).symm
  subst this
  rfl

/-- C2 fails as stated: for the descriptor without a face and the CID -1
the resolver returns -1, which is negative. -/
theorem pdf_font_cid_to_gid_negative :
    desc_noface.font ≠ none ∧
    pdf_font_cid_to_gid desc_noface (-1) = some (-1) ∧
    ¬ ∃ g : Int, pdf_font_cid_to_gid desc_noface (-1) = some g ∧ 0 ≤ g := by
  refine ⟨Option.some_ne_none _, by decide, ?_⟩
  rintro ⟨g, hg, hpos⟩
  have h : pdf_font_cid_to_gid desc_noface (-1) = some (-1) := by decide
  rw [h] at hg
  have : g = -1 := (Option.some.inj hg).symm
  omega

/-- C2, amended: for every descriptor with a font and every CID `c ≥ 0`
that lies inside the explicit array when the array case applies,
`pdf_font_cid_to_gid` is defined and its result is non-negative, in each
of the four cases. -/
theorem pdf_font_cid_to_gid_nonneg (d : pdf_font_desc) (font : fz_font) (c : Int)
    (hfont : d.font = some font) (hc : 0 ≤ c)
    (hin : ∀ arr, font.ft_face ≠ none → d.to_ttf_cmap = none → d.cid_to_gid = some arr →
      c < arr.length) :
    ∃ g : Int, pdf_font_cid_to_gid d c = some g ∧ 0 ≤ g := by
  cases hface : font.ft_face with
  | none => exact ⟨c, by simp only [pdf_font_cid_to_gid, hfont, hface], hc⟩
  | some face =>
    cases httf : d.to_ttf_cmap with
    | some cmap =>
      refine ⟨ft_char_index face (pdf_lookup_cmap cmap c),
        by simp only [pdf_font_cid_to_gid, hfont, hface, ft_cid_to_gid, httf], ?_⟩
      simp only [ft_char_index]
      split_ifs <;> exact Int.natCast_nonneg _
    | none =>
      cases harr : d.cid_to_gid with
      | none =>
        refine ⟨c, ?_, hc⟩
        simp only [pdf_font_cid_to_gid, hfont, hface, ft_cid_to_gid, httf, harr]
      | some arr =>
        have hlt := hin arr (by rw [hface]; exact Option.some_ne_none _) httf harr
        refine ⟨_, ?_, Int.natCast_nonneg (arr.getD c.toNat 0)⟩
        simp only [pdf_font_cid_to_gid, hfont, hface, ft_cid_to_gid, httf, harr]
        exact array_read_in_range arr c hc hlt

theorem pdf_font_cid_to_gid_nonneg_witness :
    ∃ g : Int, pdf_font_cid_to_gid desc_table 1 = some g ∧ 0 ≤ g :=
  pdf_font_cid_to_gid_nonneg desc_table font_22ef 1 rfl (by decide) (by
    intro arr _ _ h
    have h2 : desc_table.cid_to_gid = some [7, 9] := rfl
    rw [h2] at h
    rw [← Option.some.inj h]
    decide)

/-- C3: the precedence of `pdf_font_cid_to_gid`, for every descriptor with a
font and every CID inside the bounds of the explicit array when there is
one: no face gives the CID; else `to_ttf_cmap` gives
`ft_char_index (face, lookup (to_ttf_cmap, cid))`, whether or not a
`cid_to_gid` array is present; else the array gives `cid_to_gid[cid]`;
else the CID. -/
theorem pdf_font_cid_to_gid_precedence (d : pdf_font_desc) (font : fz_font) (cid : Int)
    (hfont : d.font = some font) (hwf : table_well_formed d)
    (hin : d.cid_to_gid ≠ none → 0 ≤ cid ∧ cid < d.cid_to_gid_len) :
    (font.ft_face = none → pdf_font_cid_to_gid d cid = some cid) ∧
    (∀ face cmap, font.ft_face = some face → d.to_ttf_cmap = some cmap →
      pdf_font_cid_to_gid d cid = some (ft_char_index face (pdf_lookup_cmap cmap cid))) ∧
    (∀ face arr, font.ft_face = some face → d.to_ttf_cmap = none → d.cid_to_gid = some arr →
      pdf_font_cid_to_gid d cid = some ((arr.getD cid.toNat 0 : Nat) : Int)) ∧
    (∀ face, font.ft_face = some face → d.to_ttf_cmap = none → d.cid_to_gid = none →
      pdf_font_cid_to_gid d cid = some cid) := by
  refine ⟨?_, ?_, ?_, ?_⟩
  · intro hface
    simp only [pdf_font_cid_to_gid, hfont, hface]
  · intro face cmap hface httf
    simp only [pdf_font_cid_to_gid, hfont, hface, ft_cid_to_gid, httf]
  · intro face arr hface httf harr
    simp only [pdf_font_cid_to_gid, hfont, hface, ft_cid_to_gid, httf, harr]
    have hb := hin (by rw [harr]; exact Option.some_ne_none _)
    have hl := hwf arr harr
    exact array_read_in_range arr cid hb.1 (by omega)
  · intro face hface httf harr
    simp only [pdf_font_cid_to_gid, hfont, hface, ft_cid_to_gid, httf, harr]

theorem desc_table_well_formed : table_well_formed desc_table := by
  intro arr h
  have h2 : desc_table.cid_to_gid = some [7, 9] := rfl
  rw [h2] at h
  rw [← Option.some.inj h]
  rfl

theorem pdf_font_cid_to_gid_precedence_witness :
    pdf_font_cid_to_gid desc_noface 1 = some 1 ∧
    pdf_font_cid_to_gid desc_ttf 1 = some 9 ∧
    pdf_font_cid_to_gid desc_table 1 = some 9 ∧
    pdf_font_cid_to_gid desc_identity 1 = some 1 :=
  ⟨(pdf_font_cid_to_gid_precedence desc_noface font_noface 1 rfl
      (fun arr h => desc_table_well_formed arr h) (fun _ => by decide)).1 rfl,
   (pdf_font_cid_to_gid_precedence desc_ttf font_22ef 1 rfl
      (fun arr h => desc_table_well_formed arr h) (fun _ => by decide)).2.1
      face_22ef cmap_shift rfl rfl,
   (pdf_font_cid_to_gid_precedence desc_table font_22ef 1 rfl
      desc_table_well_formed (fun _ => by decide)).2.2.1 face_22ef [7, 9] rfl rfl rfl,
   (pdf_font_cid_to_gid_precedence desc_identity font_22ef 1 rfl
      (fun arr h => by cases h) (fun h => absurd rfl h)).2.2.2 face_22ef rfl rfl rfl⟩

/-- C10 fails as stated: `face_22ef` has a glyph for `0x22ef` and none for
`0x2026`, and `ft_char_index` returns the non-zero glyph 5 for `0x22ef`. -/
theorem ft_char_index_22ef_without_2026 :
    FT_Get_Char_Index face_22ef 0x2026 = 0 ∧ ft_char_index face_22ef 0x22ef = 5 ∧
    ¬ (ft_char_index face_22ef 0x22ef ≠ 0 ↔ FT_Get_Char_Index face_22ef 0x2026 ≠ 0) := by
  decide

/-- C10, amended: for every face, `ft_char_index (face, 0x22ef)` is non-zero
if and only if the face has a glyph for one of the codes `0x22ef`,
`0xf000 + 0x22ef` and `0x2026`, the three codes being tried in this order. -/
theorem ft_char_index_22ef (face : FT_Face) :
    ft_char_index face 0x22ef ≠ 0 ↔
      (FT_Get_Char_Index face 0x22ef ≠ 0 ∨ FT_Get_Char_Index face 0x112ef ≠ 0 ∨
        FT_Get_Char_Index face 0x2026 ≠ 0) := by
  have hadd : int_add 0xf000 0x22ef = 0x112ef := by decide
  simp only [ft_char_index, hadd]
  by_cases h1 : FT_Get_Char_Index face 0x22ef = 0
  · by_cases h2 : FT_Get_Char_Index face 0x112ef = 0
    · simp [h1, h2]
    · simp [h1, h2]
  · simp [h1]

/-! ## Name canonicalization -/

theorem delete_spaces_skip_spaces (a : CStr) :
    delete_spaces (skip_spaces a) = delete_spaces a := by
  induction a with
  | nil => rfl
  | cons c p ih =>
    by_cases hc : c = ' '
    · simp only [skip_spaces, hc, if_true, ih]
      simp [delete_spaces]
    · simp only [skip_spaces, hc, if_false]

theorem skip_spaces_length_le (a : CStr) : (skip_spaces a).length ≤ a.length := by
  induction a with
  | nil => exact Nat.le_refl _
  | cons c p ih =>
    by_cases hc : c = ' '
    · simp only [skip_spaces, hc, if_true, List.length_cons]
      omega
    · simp only [skip_spaces, hc, if_false]
      exact Nat.le_refl _

theorem skip_spaces_head_ne_space (a : CStr) (c : Char) (t : CStr)
    (h : skip_spaces a = c :: t) : c ≠ ' ' := by
  induction a with
  | nil => cases h
  | cons d p ih =>
    by_cases hd : d = ' '
    · simp only [skip_spaces, hd, if_true] at h
      exact ih h
    · simp only [skip_spaces, hd, if_false] at h
      cases h
      exact hd

theorem delete_spaces_cons_ne (c : Char) (t : CStr) (hc : c ≠ ' ') :
    delete_spaces (c :: t) = c :: delete_spaces t := by
  simp [delete_spaces, hc]

theorem strcmp_ignore_space_loop_eq : ∀ (fuel : Nat) (a b : CStr), a.length < fuel →
    strcmp_ignore_space_loop fuel a b =
      some (if delete_spaces a = delete_spaces b then 0 else 1)
  | 0, _, _, h => absurd h (Nat.not_lt_zero _)
  | fuel + 1, a, b, h => by
    have hla := skip_spaces_length_le a
    rw [← delete_spaces_skip_spaces a, ← delete_spaces_skip_spaces b]
    simp only [strcmp_ignore_space_loop]
    cases hsa : skip_spaces a with
    | nil =>
      cases hsb : skip_spaces b with
      | nil => simp
      | cons y tb =>
        have hy := skip_spaces_head_ne_space b y tb hsb
        rw [delete_spaces_cons_ne y tb hy]
        simp [delete_spaces]
    | cons x ta =>
      have hx := skip_spaces_head_ne_space a x ta hsa
      rw [delete_spaces_cons_ne x ta hx]
      cases hsb : skip_spaces b with
      | nil => simp [delete_spaces]
      | cons y tb =>
        have hy := skip_spaces_head_ne_space b y tb hsb
        rw [delete_spaces_cons_ne y tb hy]
        by_cases hxy : x = y
        · subst hxy
          have hlen : ta.length < fuel := by
            rw [hsa, List.length_cons] at hla
            omega
          have ih := strcmp_ignore_space_loop_eq fuel ta tb hlen
          simp [ih]
        · simp [hxy]

theorem strcmp_ignore_space_eq (a b : CStr) :
    strcmp_ignore_space a b = some (if delete_spaces a = delete_spaces b then 0 else 1) :=
  strcmp_ignore_space_loop_eq (a.length + 1) a b (Nat.lt_succ_self _)

theorem clean_font_name_row_none (n : CStr) (row : List CStr)
    (h : ∀ e ∈ row, delete_spaces e ≠ delete_spaces n) :
    clean_font_name_row n row = some false := by
  induction row with
  | nil => rfl
  | cons e rest ih =>
    have he := h e (List.mem_cons_self _ _)
    simp only [clean_font_name_row, strcmp_ignore_space_eq, he, if_false]
    simp only [one_ne_zero, if_false]
    exact ih (fun e2 h2 => h e2 (List.mem_cons_of_mem _ h2))

theorem clean_font_name_row_some (n : CStr) (row : List CStr) (e : CStr) (he : e ∈ row)
    (h : delete_spaces e = delete_spaces n) :
    clean_font_name_row n row = some true := by
  induction row with
  | nil => cases he
  | cons e2 rest ih =>
    by_cases h2 : delete_spaces e2 = delete_spaces n
    · simp only [clean_font_name_row, strcmp_ignore_space_eq, h2, if_true]
    · simp only [clean_font_name_row, strcmp_ignore_space_eq, h2, if_false]
      simp only [one_ne_zero, if_false]
      rcases List.mem_cons.1 he with rfl | hmem
      · exact absurd h h2
      · exact ih hmem

theorem clean_font_name_from_none (n : CStr) (rows : List (List CStr)) (i : Nat)
    (h : ∀ row ∈ rows, ∀ e ∈ row, delete_spaces e ≠ delete_spaces n) :
    clean_font_name_from n rows i = some name_ref.argument := by
  induction rows generalizing i with
  | nil => rfl
  | cons row rest ih =>
    simp only [clean_font_name_from,
      clean_font_name_row_none n row (h row (List.mem_cons_self _ _))]
    exact ih (i + 1) (fun r hr => h r (List.mem_cons_of_mem _ hr))

theorem clean_font_name_from_some (n : CStr) (rows : List (List CStr)) (i : Nat)
    (h : ∃ row ∈ rows, ∃ e ∈ row, delete_spaces e = delete_spaces n) :
    ∃ j row, rows.get? j = some row ∧ (∃ e ∈ row, delete_spaces e = delete_spaces n) ∧
      clean_font_name_from n rows i = some (name_ref.table (i + j)) := by
  induction rows generalizing i with
  | nil =>
    obtain ⟨row, hrow, _⟩ := h
    cases hrow
  | cons row rest ih =>
    by_cases hr : ∃ e ∈ row, delete_spaces e = delete_spaces n
    · obtain ⟨e, he, hm⟩ := hr
      refine ⟨0, row, rfl, ⟨e, he, hm⟩, ?_⟩
      simp only [clean_font_name_from, clean_font_name_row_some n row e he hm, Nat.add_zero]
    · have hnone : ∀ e ∈ row, delete_spaces e ≠ delete_spaces n :=
        fun e he hm => hr ⟨e, he, hm⟩
      have hrest : ∃ r ∈ rest, ∃ e ∈ r, delete_spaces e = delete_spaces n := by
        obtain ⟨r, hmem, e, he, hm⟩ := h
        rcases List.mem_cons.1 hmem with rfl | hmem2
        · exact absurd hm (hnone e he)
        · exact ⟨r, hmem2, e, he, hm⟩
      obtain ⟨j, r, hj, hmatch, hres⟩ := ih (i + 1) hrest
      refine ⟨j + 1, r, hj, hmatch, ?_⟩
      simp only [clean_font_name_from, clean_font_name_row_none n row hnone, hres]
      congr 2
      omega

theorem base_font_names_rows_disjoint :
    ∀ r1 ∈ base_font_names, ∀ r2 ∈ base_font_names, ∀ e1 ∈ r1, ∀ e2 ∈ r2,
      delete_spaces e1 = delete_spaces e2 → r1.head? = r2.head? := by
  decide

/-- C4: `strcmp_ignore_space (a, b)` always returns, and returns 0 exactly
when `a` and `b` are equal after all spaces are deleted from both (a
case-sensitive comparison); `clean_font_name (n)` returns the canonical name
(the first entry) of a row of `base_font_names` when an entry of that row
equals `n` in this sense, and `n` itself when no entry of the 14 rows
does. -/
theorem clean_font_name_canonical (n : CStr) :
    (∀ a b : CStr, ∃ r, strcmp_ignore_space a b = some r ∧
      (r = 0 ↔ delete_spaces a = delete_spaces b)) ∧
    (∀ row ∈ base_font_names, ∀ e ∈ row, delete_spaces e = delete_spaces n →
      clean_font_name n = row.head?) ∧
    ((∀ row ∈ base_font_names, ∀ e ∈ row, delete_spaces e ≠ delete_spaces n) →
      clean_font_name n = some n) := by
  refine ⟨?_, ?_, ?_⟩
  · intro a b
    refine ⟨_, strcmp_ignore_space_eq a b, ?_⟩
    by_cases h : delete_spaces a = delete_spaces b
    · simp [h]
    · simp [h]
  · intro row hrow e he hm
    obtain ⟨j, r, hj, ⟨e2, he2, hm2⟩, hres⟩ :=
      clean_font_name_from_some n base_font_names 0 ⟨row, hrow, e, he, hm⟩
    have hr : r ∈ base_font_names := List.get?_mem hj
    have hhead := base_font_names_rows_disjoint r hr row hrow e2 he2 e he (hm2.trans hm.symm)
    rw [← hhead]
    simp only [clean_font_name, clean_font_name_ref, hres, Nat.zero_add, Option.map_some',
      name_ref.deref]
    have hget : base_font_names.getD j [] = r := by
      rw [List.getD_eq_getElem?_getD, ← List.get?_eq_getElem?, hj]
      rfl
    rw [hget]
    cases r with
    | nil => cases he2
    | cons c t => rfl
  · intro h
    simp only [clean_font_name, clean_font_name_ref,
      clean_font_name_from_none n base_font_names 0 h, Option.map_some', name_ref.deref]

theorem clean_font_name_canonical_witness :
    clean_font_name "Arial , Bold".toList = some "Helvetica-Bold".toList ∧
    clean_font_name "Foo".toList = some "Foo".toList :=
  ⟨(clean_font_name_canonical "Arial , Bold".toList).2.1
      ["Helvetica-Bold".toList, "Arial-BoldMT".toList, "Arial,Bold".toList, "Arial-Bold".toList,
        "Helvetica,Bold".toList] (by decide) "Arial,Bold".toList (by decide) (by decide),
   (clean_font_name_canonical "Foo".toList).2.2 (by decide)⟩

/-! ## The dispatcher -/

/-- C5: for a dictionary not found in the store, `pdf_load_font` chooses
the loader from `Subtype` first: `Type0` goes to the type 0 loader; `Type1`,
`MMType1` and `TrueType` go to the simple loader; `Type3` goes to the
type 3 loader; for any other `Subtype`, `CharProcs` present selects
type 3, else `DescendantFonts` present selects type 0, else the simple
loader is used. -/
theorem pdf_load_font_route_by_subtype (dict : Option fz_obj) (subtype : CStr)
    (hsub : fz_to_name (fz_dict_gets dict "Subtype".toList) = subtype) :
    (subtype = "Type0".toList → (pdf_load_font_route dict).1 = font_loader.type0) ∧
    (subtype = "Type1".toList ∨ subtype = "MMType1".toList ∨ subtype = "TrueType".toList →
      (pdf_load_font_route dict).1 = font_loader.simple) ∧
    (subtype = "Type3".toList → (pdf_load_font_route dict).1 = font_loader.type3) ∧
    (subtype ≠ "Type0".toList → subtype ≠ "Type1".toList → subtype ≠ "MMType1".toList →
      subtype ≠ "TrueType".toList → subtype ≠ "Type3".toList →
      ((fz_dict_gets dict "CharProcs".toList).isSome = true →
        (pdf_load_font_route dict).1 = font_loader.type3) ∧
      ((fz_dict_gets dict "CharProcs".toList).isSome = false →
        (fz_dict_gets dict "DescendantFonts".toList).isSome = true →
        (pdf_load_font_route dict).1 = font_loader.type0) ∧
      ((fz_dict_gets dict "CharProcs".toList).isSome = false →
        (fz_dict_gets dict "DescendantFonts".toList).isSome = false →
        (pdf_load_font_route dict).1 = font_loader.simple)) := by
  have hroute : pdf_load_font_route dict =
      if subtype = "Type0".toList then (font_loader.type0, none)
      else if subtype = "Type1".toList then (font_loader.simple, none)
      else if subtype = "MMType1".toList then (font_loader.simple, none)
      else if subtype = "TrueType".toList then (font_loader.simple, none)
      else if subtype = "Type3".toList then (font_loader.type3, none)
      else if (fz_dict_gets dict "CharProcs".toList).isSome then
        (font_loader.type3, some "unknown font format, guessing type3.".toList)
      else if (fz_dict_gets dict "DescendantFonts".toList).isSome then
        (font_loader.type0, some "unknown font format, guessing type0.".toList)
      else
        (font_loader.simple, some "unknown font format, guessing type1 or truetype.".toList) := by
    rw [← hsub]
    rfl
  rw [hroute]
  refine ⟨?_, ?_, ?_, ?_⟩
  · intro h
    rw [if_pos h]
  · rintro (h | h | h)
    · rw [if_neg (by rw [h]; decide), if_pos h]
    · rw [if_neg (by rw [h]; decide), if_neg (by rw [h]; decide), if_pos h]
    · rw [if_neg (by rw [h]; decide), if_neg (by rw [h]; decide), if_neg (by rw [h]; decide),
        if_pos h]
  · intro h
    rw [if_neg (by rw [h]; decide), if_neg (by rw [h]; decide), if_neg (by rw [h]; decide),
      if_neg (by rw [h]; decide), if_pos h]
  · intro h0 h1 h2 h3 h4
    rw [if_neg h0, if_neg h1, if_neg h2, if_neg h3, if_neg h4]
    refine ⟨?_, ?_, ?_⟩
    · intro hc
      rw [if_pos hc]
    · intro hc hd
      rw [if_neg (by rw [hc]; decide), if_pos hd]
    · intro hc hd
      rw [if_neg (by rw [hc]; decide), if_neg (by rw [hd]; decide)]

theorem pdf_load_font_route_by_subtype_witness :
    (pdf_load_font_route (some dict_unknown_subtype)).1 = font_loader.type3 :=
  ((pdf_load_font_route_by_subtype (some dict_unknown_subtype) "Type42".toList rfl).2.2.2
    (by decide) (by decide) (by decide) (by decide) (by decide)).1 (by decide)

/-! ## The `W` array -/

theorem wrap_int_of_fits (x : Int) (h0 : -2147483648 ≤ x) (h1 : x < 2147483648) :
    wrap_int x = x := by
  unfold wrap_int
  omega

theorem foldl_add_hmtx_range (f : Nat → pdf_hmtx) (l : List Nat) (fd : pdf_font_desc) :
    l.foldl (fun fontdesc k => pdf_add_hmtx fontdesc (f k).lo (f k).hi (f k).w) fd =
      { fd with hmtx := fd.hmtx ++ l.map f } := by
  induction l generalizing fd with
  | nil => simp
  | cons k ks ih =>
    rw [List.foldl_cons, ih]
    simp [pdf_add_hmtx]

theorem single_ranges_eq_map (ws : List Int) (c0 : Int) :
    single_ranges c0 ws =
      (List.range ws.length).map
        (fun (k : Nat) => (⟨c0 + (k : Int), c0 + (k : Int), ws.getD k 0⟩ : pdf_hmtx)) := by
  induction ws generalizing c0 with
  | nil => rfl
  | cons w ws ih =>
    rw [single_ranges, ih, List.length_cons, List.range_succ_eq_map, List.map_cons, List.map_map]
    congr 1
    · simp
    · apply List.map_congr_left
      intro k _
      simp only [Function.comp, List.getD_cons_succ, Nat.succ_eq_add_one, Nat.cast_add,
        Nat.cast_one]
      have : c0 + 1 + (k : Int) = c0 + ((k : Int) + 1) := by omega
      rw [this]

theorem load_cid_font_W_array_list (c0 : Int) (ws : List Int) (fd : pdf_font_desc)
    (hfit : (W_record.list c0 ws).fits = true) :
    load_cid_font_W_array (some (fz_obj.array (ws.map fz_obj.int))) c0 ws.length fd =
      { fd with hmtx := fd.hmtx ++ single_ranges c0 ws } := by
  have hfit2 : -2147483648 ≤ c0 ∧ c0 + ws.length ≤ 2147483648 := by
    simpa [W_record.fits] using hfit
  unfold load_cid_font_W_array
  have h := foldl_add_hmtx_range
    (fun k => ⟨int_add c0 k, int_add c0 k,
      fz_to_int (fz_array_get (some (fz_obj.array (ws.map fz_obj.int))) k)⟩)
    (List.range ws.length) fd
  simp only at h
  rw [h, single_ranges_eq_map]
  congr 2
  apply List.map_congr_left
  intro k hk
  have hk2 : k < ws.length := List.mem_range.1 hk
  have hw : int_add c0 k = c0 + k := by
    unfold int_add
    apply wrap_int_of_fits <;> omega
  have hget : fz_to_int (fz_array_get (some (fz_obj.array (ws.map fz_obj.int))) k) =
      ws.getD k 0 := by
    simp [fz_array_get, List.get?_eq_getElem?, List.getD_eq_getElem?_getD, hk2, fz_to_int]
  rw [hw, hget]

theorem get?_append_offset {α : Type} (pre l : List α) (k : Nat) :
    (pre ++ l).get? (pre.length + k) = l.get? k := by
  induction pre with
  | nil => simp
  | cons x pre ih =>
    rw [List.cons_append, List.length_cons, Nat.add_right_comm]
    exact ih

theorem load_cid_font_W_loop_done (widths : Option fz_obj) (n fuel i : Nat)
    (fd : pdf_font_desc) (h : n ≤ i) :
    load_cid_font_W_loop widths n (fuel + 1) i fd = some fd := by
  rw [load_cid_font_W_loop, if_neg (by omega)]

theorem load_cid_font_W_loop_range (items : List fz_obj) (n fuel i : Nat) (fd : pdf_font_desc)
    (c0 c1 w : Int) (hi : i < n)
    (h0 : items.get? i = some (fz_obj.int c0))
    (h1 : items.get? (i + 1) = some (fz_obj.int c1))
    (h2 : items.get? (i + 2) = some (fz_obj.int w)) :
    load_cid_font_W_loop (some (fz_obj.array items)) n (fuel + 1) i fd =
      load_cid_font_W_loop (some (fz_obj.array items)) n fuel (i + 3)
        (pdf_add_hmtx fd c0 c1 w) := by
  rw [load_cid_font_W_loop, if_pos hi]
  simp only [fz_array_get, h0, h1, h2, fz_to_int, fz_is_array, Bool.false_eq_true, if_false]

theorem load_cid_font_W_loop_list (items : List fz_obj) (n fuel i : Nat) (fd : pdf_font_desc)
    (c0 : Int) (ws : List fz_obj) (hi : i < n)
    (h0 : items.get? i = some (fz_obj.int c0))
    (h1 : items.get? (i + 1) = some (fz_obj.array ws)) :
    load_cid_font_W_loop (some (fz_obj.array items)) n (fuel + 1) i fd =
      load_cid_font_W_loop (some (fz_obj.array items)) n fuel (i + 2)
        (load_cid_font_W_array (some (fz_obj.array ws)) c0 ws.length fd) := by
  rw [load_cid_font_W_loop, if_pos hi]
  simp only [fz_array_get, h0, h1, fz_to_int, fz_is_array, if_true, fz_array_len]

theorem load_cid_font_W_loop_records (recs : List W_record) : ∀ (pre : List fz_obj)
    (fuel : Nat) (fd : pdf_font_desc), (∀ r ∈ recs, r.fits = true) →
    (W_objects recs).length < fuel →
    load_cid_font_W_loop (some (fz_obj.array (pre ++ W_objects recs)))
      (pre.length + (W_objects recs).length) fuel pre.length fd =
      some { fd with hmtx := fd.hmtx ++ W_ranges recs } := by
  induction recs with
  | nil =>
    intro pre fuel fd _ hfuel
    cases fuel with
    | zero => exact absurd hfuel (Nat.not_lt_zero _)
    | succ fuel =>
      rw [load_cid_font_W_loop_done _ _ _ _ _ (by simp [W_objects])]
      simp [W_ranges]
  | cons r rs ih =>
    intro pre fuel fd hfit hfuel
    cases fuel with
    | zero => exact absurd hfuel (Nat.not_lt_zero _)
    | succ fuel =>
      have hfit2 : ∀ r ∈ rs, r.fits = true := fun r hr => hfit r (List.mem_cons_of_mem _ hr)
      cases r with
      | range c0 c1 w =>
        have hobj : W_objects (W_record.range c0 c1 w :: rs) =
            fz_obj.int c0 :: fz_obj.int c1 :: fz_obj.int w :: W_objects rs := rfl
        rw [hobj] at hfuel ⊢
        have g0 : (pre ++ fz_obj.int c0 :: fz_obj.int c1 :: fz_obj.int w :: W_objects rs).get?
            pre.length = some (fz_obj.int c0) := get?_append_offset pre _ 0
        have g1 : (pre ++ fz_obj.int c0 :: fz_obj.int c1 :: fz_obj.int w :: W_objects rs).get?
            (pre.length + 1) = some (fz_obj.int c1) := get?_append_offset pre _ 1
        have g2 : (pre ++ fz_obj.int c0 :: fz_obj.int c1 :: fz_obj.int w :: W_objects rs).get?
            (pre.length + 2) = some (fz_obj.int w) := get?_append_offset pre _ 2
        rw [load_cid_font_W_loop_range _ _ _ _ _ c0 c1 w
          (by simp only [List.length_cons]; omega) g0 g1 g2]
        have h := ih (pre ++ [fz_obj.int c0, fz_obj.int c1, fz_obj.int w]) fuel
          (pdf_add_hmtx fd c0 c1 w) hfit2
          (by simp only [List.length_cons] at hfuel; omega)
        have e1 : pre ++ [fz_obj.int c0, fz_obj.int c1, fz_obj.int w] ++ W_objects rs =
            pre ++ fz_obj.int c0 :: fz_obj.int c1 :: fz_obj.int w :: W_objects rs := by
          simp
        have e2 : (pre ++ [fz_obj.int c0, fz_obj.int c1, fz_obj.int w]).length =
            pre.length + 3 := by simp
        have e3 : pre.length + 3 + (W_objects rs).length = pre.length +
            (fz_obj.int c0 :: fz_obj.int c1 :: fz_obj.int w :: W_objects rs).length := by
          simp only [List.length_cons]
          omega
        rw [e1, e2, e3] at h
        rw [h]
        simp [pdf_add_hmtx, W_ranges, W_record.ranges]
      | list c0 ws =>
        have hobj : W_objects (W_record.list c0 ws :: rs) =
            fz_obj.int c0 :: fz_obj.array (ws.map fz_obj.int) :: W_objects rs := rfl
        rw [hobj] at hfuel ⊢
        have g0 : (pre ++ fz_obj.int c0 :: fz_obj.array (ws.map fz_obj.int) ::
            W_objects rs).get? pre.length = some (fz_obj.int c0) := get?_append_offset pre _ 0
        have g1 : (pre ++ fz_obj.int c0 :: fz_obj.array (ws.map fz_obj.int) ::
            W_objects rs).get? (pre.length + 1) = some (fz_obj.array (ws.map fz_obj.int)) :=
          get?_append_offset pre _ 1
        rw [load_cid_font_W_loop_list _ _ _ _ _ c0 (ws.map fz_obj.int)
          (by simp only [List.length_cons]; omega) g0 g1]
        have hl := load_cid_font_W_array_list c0 ws fd (hfit _ (List.mem_cons_self _ _))
        rw [List.length_map, hl]
        have h := ih (pre ++ [fz_obj.int c0, fz_obj.array (ws.map fz_obj.int)]) fuel
          { fd with hmtx := fd.hmtx ++ single_ranges c0 ws } hfit2
          (by simp only [List.length_cons] at hfuel; omega)
        have e1 : pre ++ [fz_obj.int c0, fz_obj.array (ws.map fz_obj.int)] ++ W_objects rs =
            pre ++ fz_obj.int c0 :: fz_obj.array (ws.map fz_obj.int) :: W_objects rs := by
          simp
        have e2 : (pre ++ [fz_obj.int c0, fz_obj.array (ws.map fz_obj.int)]).length =
            pre.length + 2 := by simp
        have e3 : pre.length + 2 + (W_objects rs).length = pre.length +
            (fz_obj.int c0 :: fz_obj.array (ws.map fz_obj.int) :: W_objects rs).length := by
          simp only [List.length_cons]
          omega
        rw [e1, e2, e3] at h
        rw [h]
        simp [W_ranges, W_record.ranges]

/-- C6: for every well-formed `W` array (records `c0 [w1 ... wm]` and
`c0 c1 w`, the codes `c0 + k` being `int` values), the `W` reader of
`load_cid_font` returns and appends to `hmtx`, in array order, exactly the
single-code ranges `(c0 + k, c0 + k, w_{k+1})`, `k = 0 .. m - 1`, of each
list record and the one range `(c0, c1, w)` of each range record; the
default width becomes `DW`, or 1000 when `DW` is absent; nothing else of
the descriptor changes. -/
theorem load_cid_font_W_ranges (dict : Option fz_obj) (fd : pdf_font_desc)
    (recs : List W_record) (dw : Option Int)
    (hfit : ∀ r ∈ recs, r.fits = true)
    (hW : fz_dict_gets dict "W".toList = some (fz_obj.array (W_objects recs)))
    (hDW : fz_dict_gets dict "DW".toList = dw.map fz_obj.int) :
    load_cid_font_horizontal dict fd =
      some { fd with hmtx := fd.hmtx ++ W_ranges recs,
                     dhmtx := { fd.dhmtx with w := dw.getD 1000 } } := by
  have hdw : (if (fz_dict_gets dict "DW".toList).isSome then
      fz_to_int (fz_dict_gets dict "DW".toList) else (1000 : Int)) = dw.getD 1000 := by
    rw [hDW]
    cases dw <;> rfl
  have hloop := load_cid_font_W_loop_records recs [] ((W_objects recs).length + 1)
    (pdf_set_default_hmtx fd (dw.getD 1000)) hfit (Nat.lt_succ_self _)
  simp only [List.nil_append, List.length_nil, Nat.zero_add] at hloop
  simp only [load_cid_font_horizontal, hdw]
  rw [hW]
  simp only [Option.isSome_some, if_true, fz_array_len]
  rw [hloop]
  rfl

theorem load_cid_font_W_ranges_witness :
    (load_cid_font_horizontal (some dict_W_sample) pdf_new_font_desc).map
        (fun d => (d.hmtx, d.dhmtx.w)) =
      some ([⟨1, 5, 600⟩, ⟨10, 10, 700⟩, ⟨11, 11, 800⟩, ⟨12, 12, 900⟩], 500) := by
  rw [load_cid_font_W_ranges (some dict_W_sample) pdf_new_font_desc
    [W_record.range 1 5 600, W_record.list 10 [700, 800, 900]] (some 500)
    (by decide) rfl rfl]
  rfl

/-! ## The `Widths` array -/

theorem pdf_load_simple_font_widths_eq (dict widths : Option fz_obj) (fd : pdf_font_desc)
    (first last : Int)
    (hf : fz_to_int (fz_dict_gets dict "FirstChar".toList) = first)
    (hl : fz_to_int (fz_dict_gets dict "LastChar".toList) = last) :
    pdf_load_simple_font_widths dict widths fd =
      { fd with hmtx := (fd.hmtx ++ widths_ranges widths
          (if first < 0 ∨ last > 255 ∨ first > last then 0 else first)
          (if first < 0 ∨ last > 255 ∨ first > last then 0 else last)) } := by
  unfold pdf_load_simple_font_widths
  simp only [hf, hl, decide_eq_true_eq]
  rw [foldl_add_hmtx_range (fun (i : Nat) => (⟨(i : Int) +
    (if first < 0 ∨ last > 255 ∨ first > last then 0 else first), (i : Int) +
    (if first < 0 ∨ last > 255 ∨ first > last then 0 else first),
    fz_to_int (fz_array_get widths i)⟩ : pdf_hmtx))]
  unfold widths_ranges
  congr 2
  apply List.map_congr_left
  intro i _
  rw [Int.add_comm]

/-- C9: in the `Widths` step of the simple-font loader, when
`FirstChar > LastChar`, `FirstChar < 0` or `LastChar > 255` both are
taken as 0, so the step adds the one range `(0, 0, Widths[0])`, as it does
for `FirstChar = LastChar = 0`; otherwise it adds the ranges
`(first + i, first + i, Widths[i])` for `i = 0 .. last - first`; in every
case each range added is a single-code range with its code in `[0, 255]`. -/
theorem pdf_load_simple_font_widths_ranges (dict widths : Option fz_obj) (fd : pdf_font_desc)
    (first last : Int)
    (hf : fz_to_int (fz_dict_gets dict "FirstChar".toList) = first)
    (hl : fz_to_int (fz_dict_gets dict "LastChar".toList) = last) :
    (first < 0 ∨ last > 255 ∨ first > last →
      pdf_load_simple_font_widths dict widths fd =
        pdf_add_hmtx fd 0 0 (fz_to_int (fz_array_get widths 0)) ∧
      ∀ dict0 : Option fz_obj,
        fz_to_int (fz_dict_gets dict0 "FirstChar".toList) = 0 →
        fz_to_int (fz_dict_gets dict0 "LastChar".toList) = 0 →
        pdf_load_simple_font_widths dict0 widths fd =
          pdf_load_simple_font_widths dict widths fd) ∧
    (¬ (first < 0 ∨ last > 255 ∨ first > last) →
      pdf_load_simple_font_widths dict widths fd =
        { fd with hmtx := fd.hmtx ++ widths_ranges widths first last }) ∧
    (∃ added : List pdf_hmtx,
      (pdf_load_simple_font_widths dict widths fd).hmtx = fd.hmtx ++ added ∧
      ∀ e ∈ added, e.lo = e.hi ∧ 0 ≤ e.lo ∧ e.lo ≤ 255) := by
  have heq := pdf_load_simple_font_widths_eq dict widths fd first last hf hl
  refine ⟨?_, ?_, ?_⟩
  · intro hbad
    have h1 : pdf_load_simple_font_widths dict widths fd =
        pdf_add_hmtx fd 0 0 (fz_to_int (fz_array_get widths 0)) := by
      rw [heq]
      simp only [hbad, if_true]
      rfl
    refine ⟨h1, ?_⟩
    intro dict0 hf0 hl0
    rw [h1, pdf_load_simple_font_widths_eq dict0 widths fd 0 0 hf0 hl0]
    rfl
  · intro hok
    rw [heq]
    simp only [hok, if_false]
  · refine ⟨_, by rw [heq], ?_⟩
    intro e he
    unfold widths_ranges at he
    obtain ⟨i, hi, rfl⟩ := List.mem_map.1 he
    have hi2 := List.mem_range.1 hi
    by_cases hbad : first < 0 ∨ last > 255 ∨ first > last
    · simp only [hbad, if_true] at hi2 ⊢
      have h3 : ((0 : Int) - 0 + 1).toNat = 1 := rfl
      rw [h3] at hi2
      have : i = 0 := by omega
      subst this
      decide
    · simp only [hbad, if_false] at hi2 ⊢
      refine ⟨trivial, ?_, ?_⟩ <;> omega

theorem pdf_load_simple_font_widths_ranges_witness :
    (pdf_load_simple_font_widths (some dict_first_after_last) (some widths_sample)
        pdf_new_font_desc).hmtx = [⟨0, 0, 500⟩] ∧
    (pdf_load_simple_font_widths (some dict_first_last_zero) (some widths_sample)
        pdf_new_font_desc).hmtx = [⟨0, 0, 500⟩] := by
  have h := (pdf_load_simple_font_widths_ranges (some dict_first_after_last)
    (some widths_sample) pdf_new_font_desc 70 65 rfl rfl).1 (by decide)
  refine ⟨?_, ?_⟩
  · rw [h.1]
    rfl
  · rw [h.2 (some dict_first_last_zero) rfl rfl, h.1]
    rfl

/-! ## The `Differences` array -/

theorem foldl_range'_get? {σ α : Type} (f : σ → Option α → σ) (l : List α) :
    ∀ (pre : List α) (s : σ),
    (List.range' pre.length l.length).foldl (fun st i => f st ((pre ++ l).get? i)) s =
      l.foldl (fun st x => f st (some x)) s := by
  induction l with
  | nil =>
    intro pre s
    rfl
  | cons x l ih =>
    intro pre s
    have h0 : (pre ++ x :: l).get? pre.length = some x := get?_append_offset pre (x :: l) 0
    have h := ih (pre ++ [x]) (f s (some x))
    have e1 : pre ++ [x] ++ l = pre ++ x :: l := by simp
    have e2 : (pre ++ [x]).length = pre.length + 1 := by simp
    rw [e1, e2] at h
    rw [List.length_cons, List.range'_succ, List.foldl_cons, List.foldl_cons, h0]
    exact h

theorem foldl_range_get? {σ α : Type} (f : σ → Option α → σ) (l : List α) (s : σ) :
    (List.range l.length).foldl (fun st i => f st (l.get? i)) s =
      l.foldl (fun st x => f st (some x)) s := by
  rw [List.range_eq_range']
  exact foldl_range'_get? f l [] s

theorem clamp_slot_range (k : Int) : 0 ≤ clamp_slot k ∧ clamp_slot k ≤ 255 := by
  unfold clamp_slot
  split_ifs <;> omega

theorem differences_item_int (k : Int) (kcur : Int) (e : List (Option CStr)) :
    differences_item (some (fz_obj.int k)) (kcur, e) =
      some (min (clamp_slot k + (0 : Nat)) 255, e) := by
  have hc := clamp_slot_range k
  have hmin : min (clamp_slot k + ((0 : Nat) : Int)) 255 = clamp_slot k := by
    simp only [Nat.cast_zero, Int.add_zero]
    omega
  rw [hmin]
  simp only [differences_item, fz_is_int, fz_is_name, fz_to_int, if_true, Bool.false_eq_true,
    if_false, clamp_slot]
  congr 2
  split_ifs <;> omega

theorem differences_item_name (s : CStr) (k0 : Int) (j : Nat) (e : List (Option CStr))
    (hlen : e.length = 256) :
    differences_item (some (fz_obj.name s)) (min (clamp_slot k0 + j) 255, e) =
      some (min (clamp_slot k0 + ((j + 1 : Nat) : Int)) 255,
        e.set (min (clamp_slot k0 + j) 255).toNat (some s)) := by
  have hc := clamp_slot_range k0
  have hk0 : 0 ≤ min (clamp_slot k0 + (j : Int)) 255 := by omega
  have hk1 : min (clamp_slot k0 + (j : Int)) 255 < (e.length : Int) := by
    rw [hlen]
    omega
  simp only [differences_item, fz_is_int, fz_is_name, fz_to_name, if_true, Bool.false_eq_true,
    if_false, estrings_write, hk0, hk1, and_self, Option.map_some']
  congr 2
  push_cast
  split_ifs <;> omega

theorem differences_item_other (item : fz_obj) (k0 : Int) (j : Nat) (e : List (Option CStr))
    (hint : fz_is_int (some item) = false) (hname : fz_is_name (some item) = false) :
    differences_item (some item) (min (clamp_slot k0 + j) 255, e) =
      some (min (clamp_slot k0 + j) 255, e) := by
  have hc := clamp_slot_range k0
  simp only [differences_item, hint, hname, Bool.false_eq_true, if_false]
  congr 2
  split_ifs <;> omega

theorem apply_writes_length (e : List (Option CStr)) (ws : List (Nat × CStr)) :
    (apply_writes e ws).length = e.length := by
  induction ws generalizing e with
  | nil => rfl
  | cons p ps ih =>
    simp only [apply_writes, List.foldl_cons] at ih ⊢
    rw [ih, List.length_set]

theorem differences_fold (items : List fz_obj) : ∀ (k0 : Int) (j : Nat)
    (e : List (Option CStr)), e.length = 256 →
    ∃ k : Int, items.foldl (fun state x => state.bind (differences_item (some x)))
        (some (min (clamp_slot k0 + j) 255, e)) =
      some (k, apply_writes e (differences_writes items k0 j)) := by
  induction items with
  | nil =>
    intro k0 j e _
    exact ⟨_, rfl⟩
  | cons x rest ih =>
    intro k0 j e hlen
    rw [List.foldl_cons, Option.some_bind]
    cases x with
    | int k =>
      rw [differences_item_int]
      exact ih k 0 e hlen
    | name s =>
      rw [differences_item_name s k0 j e hlen]
      obtain ⟨k, hk⟩ := ih k0 (j + 1) (e.set (min (clamp_slot k0 + j) 255).toNat (some s))
        (by rw [List.length_set]; exact hlen)
      exact ⟨k, hk⟩
    | null =>
      rw [differences_item_other fz_obj.null k0 j e rfl rfl]
      exact ih k0 j e hlen
    | bool b =>
      rw [differences_item_other (fz_obj.bool b) k0 j e rfl rfl]
      exact ih k0 j e hlen
    | string s =>
      rw [differences_item_other (fz_obj.string s) k0 j e rfl rfl]
      exact ih k0 j e hlen
    | array l =>
      rw [differences_item_other (fz_obj.array l) k0 j e rfl rfl]
      exact ih k0 j e hlen
    | dict l =>
      rw [differences_item_other (fz_obj.dict l) k0 j e rfl rfl]
      exact ih k0 j e hlen
    | indirect n g =>
      rw [differences_item_other (fz_obj.indirect n g) k0 j e rfl rfl]
      exact ih k0 j e hlen

theorem differences_writes_slot_le (items : List fz_obj) : ∀ (k0 : Int) (j : Nat),
    ∀ p ∈ differences_writes items k0 j, p.1 ≤ 255 := by
  induction items with
  | nil =>
    intro k0 j p hp
    cases hp
  | cons x rest ih =>
    intro k0 j p hp
    cases x with
    | int k => exact ih k 0 p hp
    | name s =>
      simp only [differences_writes, List.mem_cons] at hp
      rcases hp with rfl | hp
      · have hc := clamp_slot_range k0
        simp only
        omega
      · exact ih k0 (j + 1) p hp
    | null => exact ih k0 j p hp
    | bool b => exact ih k0 j p hp
    | string s => exact ih k0 j p hp
    | array l => exact ih k0 j p hp
    | dict l => exact ih k0 j p hp
    | indirect n g => exact ih k0 j p hp

theorem apply_writes_get?_of_not_written (ws : List (Nat × CStr)) :
    ∀ (e : List (Option CStr)) (slot : Nat), (∀ p ∈ ws, p.1 ≠ slot) →
    (apply_writes e ws).get? slot = e.get? slot := by
  induction ws with
  | nil =>
    intro e slot _
    rfl
  | cons p ps ih =>
    intro e slot h
    have hp : p.1 ≠ slot := h p (List.mem_cons_self _ _)
    have h2 := ih (e.set p.1 (some p.2)) slot (fun q hq => h q (List.mem_cons_of_mem _ hq))
    simp only [apply_writes, List.foldl_cons] at h2 ⊢
    rw [h2, List.get?_eq_getElem?, List.get?_eq_getElem?, List.getElem?_set_ne hp]

/-- C7: applying a `Differences` array to a 256-entry name table never
writes outside the table (the step returns, without a fault) and the
table it returns is the base table after the writes the claim describes,
in array order: the `j`-th name (from 0) of a run that follows the integer
`k0` is stored in slot `min (clamp k0 + j, 255)`, with `clamp k = 0` for
`k < 0`, `255` for `k > 255` and `k` otherwise; every slot written is in
`[0, 255]`, and a slot that is not written keeps the value of the base
table. -/
theorem pdf_load_simple_font_differences_writes (items : List fz_obj)
    (estrings : List (Option CStr)) (hlen : estrings.length = 256) :
    pdf_load_simple_font_differences (some (fz_obj.array items)) estrings =
      some (apply_writes estrings (differences_writes items 0 0)) ∧
    (apply_writes estrings (differences_writes items 0 0)).length = 256 ∧
    (∀ p ∈ differences_writes items 0 0, p.1 ≤ 255) ∧
    (∀ slot : Nat, (∀ p ∈ differences_writes items 0 0, p.1 ≠ slot) →
      (apply_writes estrings (differences_writes items 0 0)).get? slot =
        estrings.get? slot) := by
  refine ⟨?_, ?_, differences_writes_slot_le items 0 0, ?_⟩
  · obtain ⟨k, hk⟩ := differences_fold items 0 0 estrings hlen
    have h0 : min (clamp_slot 0 + ((0 : Nat) : Int)) 255 = 0 := by decide
    rw [h0] at hk
    simp only [pdf_load_simple_font_differences, fz_is_array, if_true, fz_array_len,
      fz_array_get]
    rw [foldl_range_get?
      (fun (state : Option (Int × List (Option CStr))) (x : Option fz_obj) =>
        state.bind (differences_item x)) items (some (0, estrings)), hk]
    rfl
  · rw [apply_writes_length, hlen]
  · intro slot h
    exact apply_writes_get?_of_not_written _ estrings slot h

set_option maxRecDepth 8000 in
theorem pdf_load_simple_font_differences_writes_witness :
    differences_writes [fz_obj.int 32, fz_obj.name "space".toList, fz_obj.int 65,
      fz_obj.name "A".toList, fz_obj.name "B".toList, fz_obj.name "C".toList] 0 0 =
      [(32, "space".toList), (65, "A".toList), (66, "B".toList), (67, "C".toList)] ∧
    (pdf_load_simple_font_differences (some differences_sample) estrings_empty).map
      (fun e => (e.get? 32, e.get? 65, e.get? 66, e.get? 67, e.get? 68)) =
    some (some (some "space".toList), some (some "A".toList), some (some "B".toList),
      some (some "C".toList), some none) := by
  refine ⟨by decide, ?_⟩
  rw [differences_sample, (pdf_load_simple_font_differences_writes _ estrings_empty rfl).1]
  rfl

/-! ## The `float` of `MissingWidth` -/

theorem float_spacing_small (fuel a : Nat) (h : a < 2 ^ 24) :
    float_spacing (fuel + 1) a 1 = 1 := by
  simp only [float_spacing, Nat.mul_one, h, if_true]

theorem int_to_float_exact (i : Int) (h : i.natAbs < 2 ^ 24) : int_to_float i = i := by
  unfold int_to_float
  simp only [float_spacing_small 7 i.natAbs h, Nat.div_one, Nat.mod_one, Nat.mul_zero,
    Nat.mul_one]
  simp only [Nat.lt_one_iff, if_true]
  split_ifs
  · show -(i.natAbs : Int) = i
    omega
  · show (i.natAbs : Int) = i
    omega

theorem int_to_float_rounds :
    int_to_float 16777217 = 16777216 ∧ int_to_float 16777219 = 16777220 ∧
    int_to_float (-16777217) = -16777216 ∧ int_to_float 2147483647 = 2147483648 := by
  decide

theorem float_to_int_range :
    float_to_int (int_to_float 2147483520) = some 2147483520 ∧
    float_to_int (int_to_float 2147483647) = none ∧
    float_to_int (int_to_float (-2147483648)) = some (-2147483648) := by
  decide

theorem pdf_load_simple_font_missing_width :
    (pdf_load_simple_font env_sample (some dict_missing_width)).toOption.map
      (fun fd => (fd.missing_width, fd.dhmtx.w)) = some (16777216, 16777216) := by
  rfl

/-! ## The simple-font loader -/

theorem same_glyph_table_refl (a : pdf_font_desc) : same_glyph_table a a := ⟨rfl, rfl, rfl⟩

theorem same_glyph_table_trans {a b c : pdf_font_desc} (h1 : same_glyph_table a b)
    (h2 : same_glyph_table b c) : same_glyph_table a c :=
  ⟨h1.1.trans h2.1, h1.2.1.trans h2.2.1, h1.2.2.trans h2.2.2⟩

theorem pdf_load_builtin_font_table (env : Env) (fd fd2 : pdf_font_desc) (name : CStr)
    (h : pdf_load_builtin_font env fd name = Except.ok fd2) : same_glyph_table fd2 fd := by
  unfold pdf_load_builtin_font at h
  cases hdata : env.pdf_find_builtin_font name with
  | none => simp [hdata] at h
  | some data =>
    simp only [hdata] at h
    cases hfont : fz_new_font_from_memory env data with
    | error e => simp [hfont, bind, Except.bind] at h
    | ok font =>
      simp only [hfont, bind, Except.bind, pure, Except.pure] at h
      split_ifs at h <;> cases h <;> exact ⟨rfl, rfl, rfl⟩

theorem pdf_load_substitute_font_table (env : Env) (fd fd2 : pdf_font_desc)
    (mono serif bold italic : Bool)
    (h : pdf_load_substitute_font env fd mono serif bold italic = Except.ok fd2) :
    same_glyph_table fd2 fd := by
  unfold pdf_load_substitute_font at h
  cases hdata : env.pdf_find_substitute_font mono serif bold italic with
  | none => simp [hdata] at h
  | some data =>
    simp only [hdata] at h
    cases hfont : fz_new_font_from_memory env data with
    | error e => simp [hfont, bind, Except.bind] at h
    | ok font =>
      simp only [hfont, bind, Except.bind, pure, Except.pure] at h
      cases hface : font.ft_face with
      | none => simp [hface] at h
      | some face =>
        simp only [hface] at h
        cases h
        exact ⟨rfl, rfl, rfl⟩

theorem pdf_load_substitute_cjk_font_table (env : Env) (fd fd2 : pdf_font_desc)
    (ros : pdf_ros) (serif : Bool)
    (h : pdf_load_substitute_cjk_font env fd ros serif = Except.ok fd2) :
    same_glyph_table fd2 fd := by
  unfold pdf_load_substitute_cjk_font at h
  cases hdata : env.pdf_find_substitute_cjk_font ros serif with
  | none => simp [hdata] at h
  | some data =>
    simp only [hdata] at h
    cases hfont : fz_new_font_from_memory env data with
    | error e => simp [hfont, bind, Except.bind] at h
    | ok font =>
      simp only [hfont, bind, Except.bind, pure, Except.pure] at h
      cases h
      exact ⟨rfl, rfl, rfl⟩

theorem pdf_load_system_font_table (env : Env) (fd fd2 : pdf_font_desc) (name : CStr)
    (collection : Option CStr)
    (h : pdf_load_system_font env fd name collection = Except.ok fd2) :
    same_glyph_table fd2 fd := by
  unfold pdf_load_system_font at h
  cases collection with
  | none => exact pdf_load_substitute_font_table env fd fd2 _ _ _ _ h
  | some c =>
    simp only at h
    split_ifs at h
    all_goals exact pdf_load_substitute_cjk_font_table env fd fd2 _ _ h

theorem pdf_load_embedded_font_table (env : Env) (fd fd2 : pdf_font_desc)
    (stmref : Option fz_obj)
    (h : pdf_load_embedded_font env fd stmref = Except.ok fd2) :
    same_glyph_table fd2 fd := by
  unfold pdf_load_embedded_font at h
  simp only at h
  split at h
  · cases h
  · split at h
    · cases h
    · cases h
    · cases h
      exact ⟨rfl, rfl, rfl⟩

theorem pdf_load_font_descriptor_table (env : Env) (fd fd2 : pdf_font_desc)
    (dict : Option fz_obj) (collection : Option CStr) (basefont : CStr)
    (h : pdf_load_font_descriptor env fd dict collection basefont = Except.ok fd2) :
    same_glyph_table fd2 fd := by
  unfold pdf_load_font_descriptor at h
  simp only at h
  split at h
  · cases h
  · split at h
    · cases h
    · rename_i fd1 hload
      have hfd1 : same_glyph_table fd1 fd := by
        split_ifs at hload
        all_goals first
          | exact same_glyph_table_trans (pdf_load_builtin_font_table env _ _ _ hload)
              ⟨rfl, rfl, rfl⟩
          | exact same_glyph_table_trans (pdf_load_system_font_table env _ _ _ _ hload)
              ⟨rfl, rfl, rfl⟩
          | skip
        all_goals
          split at hload
          · rename_i fde hemb
            cases hload
            exact same_glyph_table_trans (pdf_load_embedded_font_table env _ _ _ hemb)
              ⟨rfl, rfl, rfl⟩
          · first
              | exact same_glyph_table_trans (pdf_load_builtin_font_table env _ _ _ hload)
                  ⟨rfl, rfl, rfl⟩
              | exact same_glyph_table_trans (pdf_load_system_font_table env _ _ _ _ hload)
                  ⟨rfl, rfl, rfl⟩
          · cases hload
      split at h
      · cases h
      · split at h
        · cases h
        · cases h
          exact same_glyph_table_trans ⟨rfl, rfl, rfl⟩ hfd1

theorem simple_font_etable_length (env : Env) (face : FT_Face) (kind : font_kind)
    (symbolic : Bool) (estrings : List (Option CStr)) :
    (simple_font_etable env face kind symbolic estrings).length = 256 := by
  unfold simple_font_etable
  simp only
  split_ifs <;> simp

theorem pdf_load_simple_font_encoding_table (env : Env) (dict : Option fz_obj)
    (fd fd2 : pdf_font_desc)
    (h : pdf_load_simple_font_encoding env dict fd = Except.ok fd2) :
    ∃ font face estrings,
      fd.font = some font ∧ font.ft_face = some face ∧
      pdf_load_simple_font_estrings env dict fd (int_bit fd.flags 2) = Except.ok estrings ∧
      fd2.cid_to_gid_len = 256 ∧
      fd2.cid_to_gid = some (simple_font_etable env (simple_font_face face) (ft_kind face)
        (int_bit fd.flags 2) estrings) ∧
      fd2.to_ttf_cmap = fd.to_ttf_cmap := by
  unfold pdf_load_simple_font_encoding at h
  split at h
  · cases h
  · rename_i font hfont
    split at h
    · cases h
    · rename_i face hface
      simp only at h
      split at h
      · cases h
      · rename_i estrings hestrings
        split at h
        · cases h
        · cases h
          exact ⟨font, face, estrings, hfont, hface, hestrings, rfl, rfl, rfl⟩

theorem pdf_load_simple_font_cp936_table (env : Env) (dict : Option fz_obj) (name : CStr)
    (fd2 : pdf_font_desc)
    (h : pdf_load_simple_font_cp936 env dict name = Except.ok fd2) :
    fd2.cid_to_gid_len = 0 ∧ fd2.cid_to_gid = none ∧
    ∃ cmap, env.pdf_load_system_cmap "Adobe-GB1-UCS2".toList = some cmap ∧
      fd2.to_ttf_cmap = some cmap := by
  unfold pdf_load_simple_font_cp936 at h
  simp only at h
  split at h
  · cases h
  · rename_i fd1 hload
    have hfd1 := pdf_load_font_descriptor_table env _ _ _ _ _ hload
    split at h
    · cases h
    · split at h
      · cases h
      · rename_i to_unicode hto_unicode
        split at h
        · cases h
        · rename_i cmap hcmap
          cases h
          exact ⟨hfd1.1, hfd1.2.1, cmap, hto_unicode.trans hcmap, rfl⟩

theorem face_width_fold_table (face : FT_Face) (l : List Nat) :
    ∀ (state : Except fz_failure pdf_font_desc) (fd fd2 : pdf_font_desc),
    (∀ fd1, state = Except.ok fd1 → same_glyph_table fd1 fd) →
    l.foldl (face_width_step face) state = Except.ok fd2 →
    same_glyph_table fd2 fd := by
  induction l with
  | nil =>
    intro state fd fd2 hstate h
    exact hstate fd2 h
  | cons i rest ih =>
    intro state fd fd2 hstate h
    rw [List.foldl_cons] at h
    refine ih _ fd fd2 ?_ h
    intro fd1 h1
    cases state with
    | error e => cases h1
    | ok fd0 =>
      simp only [face_width_step] at h1
      split at h1
      · cases h1
      · cases h1
        exact same_glyph_table_trans ⟨rfl, rfl, rfl⟩ (hstate fd0 rfl)

theorem pdf_load_simple_font_metrics_table (dict : Option fz_obj) (fd fd2 : pdf_font_desc)
    (h : pdf_load_simple_font_metrics dict fd = Except.ok fd2) : same_glyph_table fd2 fd := by
  unfold pdf_load_simple_font_metrics at h
  split at h
  · cases h
  · split at h
    · cases h
    · rename_i font hfont face hface
      split at h
      · cases h
      · rename_i missing_width hmissing
        simp only at h
        split at h
        · cases h
        · rename_i fd1 hloaded
          cases h
          have hfd1 : same_glyph_table fd1 fd := by
            split_ifs at hloaded
            · cases hloaded
              rw [pdf_load_simple_font_widths_eq _ _ _ _ _ rfl rfl]
              exact ⟨rfl, rfl, rfl⟩
            · exact face_width_fold_table face (List.range 256) _ fd fd1
                (fun fd0 h0 => by cases h0; exact ⟨rfl, rfl, rfl⟩) hloaded
          exact same_glyph_table_trans ⟨rfl, rfl, rfl⟩ hfd1

theorem pdf_load_simple_font_eq_body (env : Env) (dict : Option fz_obj) (fd : pdf_font_desc)
    (h : pdf_load_simple_font env dict = Except.ok fd) :
    pdf_load_simple_font_body env dict = Except.ok fd := by
  unfold pdf_load_simple_font at h
  split at h
  · cases h
  · exact h

/-- C8 fails as stated: on the dictionary `dict_cp936` the loader takes the
cp936 workaround and succeeds with `cid_to_gid_len = 0`, no `cid_to_gid`
array and `to_ttf_cmap` set. -/
theorem pdf_load_simple_font_cp936_no_table :
    pdf_load_simple_font_workaround env_sample (some dict_cp936) =
      Except.ok (some "SimSun,Regular".toList) ∧
    (pdf_load_simple_font env_sample (some dict_cp936)).toOption.map
      (fun fd => (fd.cid_to_gid_len, fd.cid_to_gid, fd.to_ttf_cmap.isSome)) =
      some (0, none, true) ∧
    ¬ ∀ fd, pdf_load_simple_font env_sample (some dict_cp936) = Except.ok fd →
      fd.cid_to_gid_len = 256 := by
  refine ⟨rfl, rfl, ?_⟩
  intro hall
  cases hload : pdf_load_simple_font env_sample (some dict_cp936) with
  | error e =>
    have hsome : (pdf_load_simple_font env_sample (some dict_cp936)).toOption.isSome = true :=
      rfl
    rw [hload] at hsome
    cases hsome
  | ok fd =>
    have h256 := hall fd hload
    have h0 : (pdf_load_simple_font env_sample (some dict_cp936)).toOption.map
        (fun fd => fd.cid_to_gid_len) = some 0 := rfl
    rw [hload] at h0
    simp only [Except.toOption, Option.map_some', Option.some.injEq] at h0
    omega

/-- C8, amended: when `pdf_load_simple_font` succeeds, the test for the
cp936 workaround has a result.  If the workaround is not taken, the
descriptor has `cid_to_gid_len = 256` and `cid_to_gid` is the table
`etable` the loader built: the table `simple_font_etable` of the face of
the descriptor that the "Load font file" step gave, after the charmap is
set, of the kind of that face, of bit 2 of the flags of that descriptor and
of the names `estrings` that the "Encoding" step read from the dictionary;
that table has 256 entries.  If the workaround is taken, the descriptor has
`cid_to_gid_len = 0`, no `cid_to_gid` array, and `to_ttf_cmap` is the
system CMap `Adobe-GB1-UCS2`. -/
theorem pdf_load_simple_font_table (env : Env) (dict : Option fz_obj) (fd : pdf_font_desc)
    (h : pdf_load_simple_font env dict = Except.ok fd) :
    (∃ w, pdf_load_simple_font_workaround env dict = Except.ok w) ∧
    (pdf_load_simple_font_workaround env dict = Except.ok none →
      ∃ fd1 font face estrings,
        pdf_load_simple_font_file env dict = Except.ok fd1 ∧
        fd1.font = some font ∧ font.ft_face = some face ∧
        pdf_load_simple_font_estrings env dict fd1 (int_bit fd1.flags 2) =
          Except.ok estrings ∧
        fd.cid_to_gid_len = 256 ∧
        fd.cid_to_gid = some (simple_font_etable env (simple_font_face face) (ft_kind face)
          (int_bit fd1.flags 2) estrings) ∧
        (simple_font_etable env (simple_font_face face) (ft_kind face)
          (int_bit fd1.flags 2) estrings).length = 256) ∧
    (∀ name, pdf_load_simple_font_workaround env dict = Except.ok (some name) →
      fd.cid_to_gid_len = 0 ∧ fd.cid_to_gid = none ∧
      ∃ cmap, env.pdf_load_system_cmap "Adobe-GB1-UCS2".toList = some cmap ∧
        fd.to_ttf_cmap = some cmap) := by
  have hbody := pdf_load_simple_font_eq_body env dict fd h
  unfold pdf_load_simple_font_body at hbody
  unfold pdf_load_simple_font_workaround
  cases hfile : pdf_load_simple_font_file env dict with
  | error e =>
    rw [hfile] at hbody
    cases hbody
  | ok fd1 =>
    rw [hfile] at hbody
    simp only at hbody ⊢
    cases hw : cp936_workaround fd1 dict with
    | error e =>
      rw [hw] at hbody
      cases hbody
    | ok w =>
      rw [hw] at hbody
      simp only at hbody
      refine ⟨⟨w, rfl⟩, ?_, ?_⟩
      · intro hnone
        cases hnone
        simp only at hbody
        cases henc : pdf_load_simple_font_encoding env dict fd1 with
        | error e =>
          rw [henc] at hbody
          cases hbody
        | ok fd2 =>
          rw [henc] at hbody
          simp only at hbody
          have hm := pdf_load_simple_font_metrics_table dict fd2 fd hbody
          obtain ⟨font, face, estrings, hfont, hface, hestrings, hlen, htab, -⟩ :=
            pdf_load_simple_font_encoding_table env dict fd1 fd2 henc
          refine ⟨fd1, font, face, estrings, rfl, hfont, hface, hestrings, hm.1.trans hlen,
            hm.2.1.trans htab, ?_⟩
          exact simple_font_etable_length env _ _ _ estrings
      · intro name hname
        cases hname
        simp only at hbody
        cases henc : pdf_load_simple_font_cp936 env dict name with
        | error e =>
          rw [henc] at hbody
          cases hbody
        | ok fd2 =>
          rw [henc] at hbody
          simp only at hbody
          have hm := pdf_load_simple_font_metrics_table dict fd2 fd hbody
          obtain ⟨hlen, htab, cmap, hcmap, httf⟩ :=
            pdf_load_simple_font_cp936_table env dict name fd2 henc
          exact ⟨hm.1.trans hlen, hm.2.1.trans htab, cmap, hcmap, hm.2.2.trans httf⟩

theorem pdf_load_simple_font_table_witness :
    ∃ fd, pdf_load_simple_font env_sample (some dict_helvetica) = Except.ok fd ∧
      fd.cid_to_gid_len = 256 ∧ (fd.cid_to_gid.map List.length) = some 256 := by
  cases hload : pdf_load_simple_font env_sample (some dict_helvetica) with
  | error e =>
    have hsome :
        (pdf_load_simple_font env_sample (some dict_helvetica)).toOption.isSome = true := rfl
    rw [hload] at hsome
    cases hsome
  | ok fd =>
    obtain ⟨fd1, font, face, estrings, -, -, -, -, hlen, htab, hl⟩ :=
      (pdf_load_simple_font_table env_sample (some dict_helvetica) fd hload).2.1 rfl
    refine ⟨fd, rfl, hlen, ?_⟩
    rw [htab, Option.map_some', hl]

/-! ## System fonts -/

theorem foldl_range_last_hit (step : Option Nat → Nat → Option Nat) (hit : Nat → Prop)
    (hmiss : ∀ cmap i, ¬ hit i → step cmap i = cmap)
    (hhit : ∀ cmap i, hit i → step cmap i = some i) (init : Option Nat) :
    (∀ n, (∀ j, j < n → ¬ hit j) → (List.range n).foldl step init = init) ∧
    (∀ n i, i < n → hit i → (∀ j, i < j → j < n → ¬ hit j) →
      (List.range n).foldl step init = some i) := by
  constructor
  · intro n
    induction n with
    | zero =>
      intro _
      rfl
    | succ n ih =>
      intro h
      rw [List.range_succ, List.foldl_append, List.foldl_cons, List.foldl_nil,
        ih (fun j hj => h j (Nat.lt_succ_of_lt hj)), hmiss _ _ (h n (Nat.lt_succ_self n))]
  · intro n
    induction n with
    | zero =>
      intro i hi
      exact absurd hi (Nat.not_lt_zero _)
    | succ n ih =>
      intro i hi hiti hlast
      rw [List.range_succ, List.foldl_append, List.foldl_cons, List.foldl_nil]
      by_cases hin : i = n
      · subst hin
        exact hhit _ _ hiti
      · have hlt : i < n := by omega
        rw [hmiss _ _ (hlast n hlt (Nat.lt_succ_self n))]
        exact ih i hlt hiti (fun j h1 h2 => hlast j h1 (Nat.lt_succ_of_lt h2))

theorem select_charmap_eq_foldl (kind : font_kind) (charmaps : List FT_CharMap) :
    select_charmap kind charmaps =
      (List.range charmaps.length).foldl (select_charmap_step kind charmaps)
        (if charmaps.length > 0 then some 0 else none) := rfl

theorem select_charmap_step_miss (charmaps : List FT_CharMap) (cmap : Option Nat) (i : Nat)
    (hno : ¬ charmap_hit charmaps i) :
    select_charmap_step font_kind.TRUETYPE charmaps cmap i = cmap := by
  unfold select_charmap_step
  cases hget : charmaps.get? i with
  | none => rfl
  | some c =>
    have h1 : ¬ (c.platform_id = 1 ∧ c.encoding_id = 0) := fun h =>
      hno ⟨c, hget, Or.inl (by simp [is_mac_roman_charmap, h])⟩
    have h3 : ¬ (c.platform_id = 3 ∧ c.encoding_id = 1) := fun h =>
      hno ⟨c, hget, Or.inr (by simp [is_ms_unicode_charmap, h])⟩
    simp only [h1, h3, if_false, if_true]
    rw [if_neg (by decide)]

theorem select_charmap_step_hit (charmaps : List FT_CharMap) (cmap : Option Nat) (i : Nat)
    (hyes : charmap_hit charmaps i) :
    select_charmap_step font_kind.TRUETYPE charmaps cmap i = some i := by
  unfold select_charmap_step
  obtain ⟨c, hget, hc⟩ := hyes
  rw [hget]
  simp only [if_true]
  by_cases h3 : c.platform_id = 3 ∧ c.encoding_id = 1
  · rw [if_pos h3]
  · have h1 : c.platform_id = 1 ∧ c.encoding_id = 0 := by
      rcases hc with hc | hc
      · simpa [is_mac_roman_charmap] using hc
      · exact absurd (by simpa [is_ms_unicode_charmap] using hc) h3
    rw [if_neg h3, if_pos h1]

theorem select_charmap_truetype_last_hit (charmaps : List FT_CharMap) :
    ((∀ j, j < charmaps.length → ¬ charmap_hit charmaps j) →
      select_charmap font_kind.TRUETYPE charmaps =
        if charmaps.length > 0 then some 0 else none) ∧
    (∀ i, i < charmaps.length → charmap_hit charmaps i →
      (∀ j, i < j → j < charmaps.length → ¬ charmap_hit charmaps j) →
      select_charmap font_kind.TRUETYPE charmaps = some i) := by
  rw [select_charmap_eq_foldl]
  have h := foldl_range_last_hit (select_charmap_step font_kind.TRUETYPE charmaps)
    (charmap_hit charmaps) (select_charmap_step_miss charmaps)
    (select_charmap_step_hit charmaps) (if charmaps.length > 0 then some 0 else none)
  exact ⟨h.1 charmaps.length, h.2 charmaps.length⟩

/-- C12 fails as stated: for a TrueType face whose charmap list holds the
Microsoft Unicode charmap (3, 1) before the MacRoman charmap (1, 0), the
loader selects position 2, the MacRoman charmap. -/
theorem select_charmap_unicode_before_mac :
    (⟨3, 1⟩ : FT_CharMap) ∈ charmaps_unicode_first ∧
    (⟨1, 0⟩ : FT_CharMap) ∈ charmaps_unicode_first ∧
    select_charmap font_kind.TRUETYPE charmaps_unicode_first = some 2 ∧
    charmaps_unicode_first.get? 2 = some ⟨1, 0⟩ ∧
    ¬ ∃ i, select_charmap font_kind.TRUETYPE charmaps_unicode_first = some i ∧
      charmaps_unicode_first.get? i = some ⟨3, 1⟩ := by
  refine ⟨by decide, by decide, by decide, by decide, ?_⟩
  rintro ⟨i, hi, hget⟩
  have h2 : select_charmap font_kind.TRUETYPE charmaps_unicode_first = some 2 := by decide
  rw [h2] at hi
  have : i = 2 := (Option.some.inj hi).symm
  subst this
  exact absurd hget (by decide)

/-- C12, amended: for every TrueType face, the simple-font loader selects
the last position of the charmap list that holds a MacRoman (1, 0) or a
Microsoft Unicode (3, 1) charmap; so with both present it selects the
(3, 1) charmap when that one comes last of them, as in a sorted `cmap`
table, and the (1, 0) charmap when that one comes last.  When neither is
present it selects the first charmap of the face (`NULL` for a face
without charmaps). -/
theorem select_charmap_truetype (charmaps : List FT_CharMap) :
    ((∀ c ∈ charmaps, is_mac_roman_charmap c = false ∧ is_ms_unicode_charmap c = false) →
      select_charmap font_kind.TRUETYPE charmaps =
        if charmaps.length > 0 then some 0 else none) ∧
    (∀ i c, charmaps.get? i = some c →
      (is_mac_roman_charmap c = true ∨ is_ms_unicode_charmap c = true) →
      (∀ j d, i < j → charmaps.get? j = some d →
        is_mac_roman_charmap d = false ∧ is_ms_unicode_charmap d = false) →
      select_charmap font_kind.TRUETYPE charmaps = some i) := by
  have h := select_charmap_truetype_last_hit charmaps
  constructor
  · intro hnone
    apply h.1
    rintro j - ⟨c, hget, hc⟩
    have hmem : c ∈ charmaps := List.get?_mem hget
    have := hnone c hmem
    rcases hc with hc | hc
    · rw [this.1] at hc
      cases hc
    · rw [this.2] at hc
      cases hc
  · intro i c hget hc hlast
    have hi : i < charmaps.length := by
      rcases Nat.lt_or_ge i charmaps.length with hlt | hge
      · exact hlt
      · rw [List.get?_eq_none.2 hge] at hget
        cases hget
    apply h.2 i hi ⟨c, hget, hc⟩
    rintro j hij - ⟨d, hgetd, hd⟩
    have := hlast j d hij hgetd
    rcases hd with hd | hd
    · rw [this.1] at hd
      cases hd
    · rw [this.2] at hd
      cases hd

theorem select_charmap_truetype_witness :
    select_charmap font_kind.TRUETYPE charmaps_mac_first = some 2 ∧
    charmaps_mac_first.get? 2 = some ⟨3, 1⟩ ∧
    select_charmap font_kind.TRUETYPE [⟨0, 3⟩, ⟨3, 0⟩] = some 0 := by
  refine ⟨?_, rfl, ?_⟩
  · refine (select_charmap_truetype charmaps_mac_first).2 2 ⟨3, 1⟩ rfl (Or.inr rfl) ?_
    intro j d hj hget
    have hnone : charmaps_mac_first.get? j = none := by
      apply List.get?_eq_none.2
      have : charmaps_mac_first.length = 3 := rfl
      omega
    rw [hnone] at hget
    cases hget
  · exact (select_charmap_truetype [⟨0, 3⟩, ⟨3, 0⟩]).1 (by decide)

/-! ## The font source of a descriptor -/

theorem pdf_load_font_descriptor_eq (env : Env) (fontdesc : pdf_font_desc)
    (dict : Option fz_obj) (collection : Option CStr) (basefont : CStr) (ref : name_ref)
    (href : clean_font_name_ref (descriptor_origname dict basefont) = some ref) :
    pdf_load_font_descriptor env fontdesc dict collection basefont =
      pdf_load_font_descriptor_finish env (ref.deref (descriptor_origname dict basefont))
        (if fz_is_indirect (descriptor_font_file dict) then
          match pdf_load_embedded_font env (descriptor_with_flags fontdesc dict)
              (descriptor_font_file dict) with
          | Except.ok fontdesc => Except.ok fontdesc
          | Except.error (fz_failure.thrown _) =>
            if ref ≠ name_ref.argument then
              pdf_load_builtin_font env (descriptor_with_flags fontdesc dict)
                (ref.deref (descriptor_origname dict basefont))
            else
              pdf_load_system_font env (descriptor_with_flags fontdesc dict)
                (ref.deref (descriptor_origname dict basefont)) collection
          | Except.error e => Except.error e
        else
          if ref ≠ name_ref.argument then
            pdf_load_builtin_font env (descriptor_with_flags fontdesc dict)
              (ref.deref (descriptor_origname dict basefont))
          else
            pdf_load_system_font env (descriptor_with_flags fontdesc dict)
              (ref.deref (descriptor_origname dict basefont)) collection) := by
  unfold pdf_load_font_descriptor
  simp only
  have h2 : clean_font_name_ref (if ¬ (',' ∈ basefont) ∨ '+' ∈ basefont then
      fz_to_name (fz_dict_gets dict "FontName".toList) else basefont) = some ref := href
  rw [h2]
  rfl

theorem clean_font_name_ref_table_iff (n : CStr) :
    ∃ ref, clean_font_name_ref n = some ref ∧
      (ref ≠ name_ref.argument ↔ in_base_font_names n) := by
  by_cases hin : in_base_font_names n
  · obtain ⟨j, row, -, -, hres⟩ := clean_font_name_from_some n base_font_names 0 hin
    refine ⟨name_ref.table (0 + j), hres, ?_⟩
    constructor
    · intro _
      exact hin
    · intro _ h
      cases h
  · have hnone : ∀ row ∈ base_font_names, ∀ e ∈ row, delete_spaces e ≠ delete_spaces n :=
      fun row hrow e he hm => hin ⟨row, hrow, e, he, hm⟩
    refine ⟨name_ref.argument, clean_font_name_from_none n base_font_names 0 hnone, ?_⟩
    constructor
    · intro h
      exact absurd rfl h
    · intro h
      exact absurd h hin

/-- C13 fails as stated: for the chosen name `Helvetica` canonicalizing
does not change the name, and yet the builtin font is the source: the
descriptor loads with a provider that has no substitute font, where
`pdf_load_system_font` throws. -/
theorem pdf_load_font_descriptor_unchanged_name_builtin :
    descriptor_origname (some descriptor_helvetica) "Helvetica".toList = "Helvetica".toList ∧
    fz_is_indirect (descriptor_font_file (some descriptor_helvetica)) = false ∧
    clean_font_name "Helvetica".toList = some "Helvetica".toList ∧
    pdf_load_font_descriptor env_no_substitute pdf_new_font_desc (some descriptor_helvetica)
        none "Helvetica".toList =
      pdf_load_font_descriptor_finish env_no_substitute "Helvetica".toList
        (pdf_load_builtin_font env_no_substitute
          (descriptor_with_flags pdf_new_font_desc (some descriptor_helvetica))
          "Helvetica".toList) ∧
    (pdf_load_font_descriptor env_no_substitute pdf_new_font_desc (some descriptor_helvetica)
        none "Helvetica".toList).toOption.isSome = true ∧
    (pdf_load_system_font env_no_substitute
        (descriptor_with_flags pdf_new_font_desc (some descriptor_helvetica))
        "Helvetica".toList none).toOption.isSome = false := by
  refine ⟨by decide, by decide, by decide, rfl, rfl, rfl⟩

/-- C13, amended: in `pdf_load_font_descriptor`, when no embedded font file
is referenced or the embedded load throws, the builtin font is the source
exactly when the chosen name is found in the table of standard font names
(it equals a canonical name or an alias once spaces are deleted, so
`clean_font_name` returned an entry of the table, whether or not that
differs from the chosen name as a string), and system substitution is the
source otherwise; the chosen name is `FontName` if `BaseFont` has no comma
or has a `+`, else `BaseFont`, and the name handed to either loader is its
canonical form. -/
theorem pdf_load_font_descriptor_source (env : Env) (fontdesc : pdf_font_desc)
    (dict : Option fz_obj) (collection : Option CStr) (basefont : CStr)
    (hfile : fz_is_indirect (descriptor_font_file dict) = false ∨
      ∃ message, pdf_load_embedded_font env (descriptor_with_flags fontdesc dict)
        (descriptor_font_file dict) = Except.error (fz_failure.thrown message)) :
    ∃ fontname, clean_font_name (descriptor_origname dict basefont) = some fontname ∧
      (in_base_font_names (descriptor_origname dict basefont) →
        pdf_load_font_descriptor env fontdesc dict collection basefont =
          pdf_load_font_descriptor_finish env fontname
            (pdf_load_builtin_font env (descriptor_with_flags fontdesc dict) fontname)) ∧
      (¬ in_base_font_names (descriptor_origname dict basefont) →
        pdf_load_font_descriptor env fontdesc dict collection basefont =
          pdf_load_font_descriptor_finish env fontname
            (pdf_load_system_font env (descriptor_with_flags fontdesc dict) fontname
              collection)) := by
  obtain ⟨ref, href, hiff⟩ := clean_font_name_ref_table_iff (descriptor_origname dict basefont)
  refine ⟨ref.deref (descriptor_origname dict basefont), ?_, ?_, ?_⟩
  · simp only [clean_font_name, href, Option.map_some']
  · intro hin
    have hne : ref ≠ name_ref.argument := hiff.2 hin
    rw [pdf_load_font_descriptor_eq env fontdesc dict collection basefont ref href]
    rcases hfile with hno | ⟨message, hthrown⟩
    · rw [hno]
      simp only [Bool.false_eq_true, if_false, hne, ne_eq, not_false_eq_true, if_true]
    · rw [hthrown]
      simp only [hne, ne_eq, not_false_eq_true, if_true, ite_self]
  · intro hin
    have heq : ref = name_ref.argument := by
      by_contra hne
      exact hin (hiff.1 hne)
    rw [pdf_load_font_descriptor_eq env fontdesc dict collection basefont ref href]
    rcases hfile with hno | ⟨message, hthrown⟩
    · rw [hno]
      simp only [Bool.false_eq_true, if_false, heq, ne_eq, not_true_eq_false]
    · rw [hthrown]
      simp only [heq, ne_eq, not_true_eq_false, if_false, ite_self]

theorem pdf_load_font_descriptor_source_witness :
    (pdf_load_font_descriptor env_sample pdf_new_font_desc (some descriptor_arial) none
        "Arial".toList).toOption.map
      (fun fd => fd.font.map (fun font => (font.name, font.ft_substitute))) =
      some (some ("Helvetica".toList, false)) := by
  obtain ⟨fontname, hname, hbuiltin, -⟩ :=
    pdf_load_font_descriptor_source env_sample pdf_new_font_desc (some descriptor_arial) none
      "Arial".toList (Or.inl rfl)
  have hclean : clean_font_name (descriptor_origname (some descriptor_arial) "Arial".toList) =
      some "Helvetica".toList := by decide
  rw [hclean] at hname
  have hfont : fontname = "Helvetica".toList := (Option.some.inj hname).symm
  subst hfont
  rw [hbuiltin ⟨["Helvetica".toList, "ArialMT".toList, "Arial".toList], by decide,
    "Arial".toList, by decide, by decide⟩]
  rfl

/-! ## The `W2` array -/

theorem foldl_add_vmtx_range (f : Nat → pdf_vmtx) (l : List Nat) (fd : pdf_font_desc) :
    l.foldl (fun fontdesc k =>
        pdf_add_vmtx fontdesc (f k).lo (f k).hi (f k).x (f k).y (f k).w) fd =
      { fd with vmtx := fd.vmtx ++ l.map f } := by
  induction l generalizing fd with
  | nil => simp
  | cons k ks ih =>
    rw [List.foldl_cons, ih]
    simp [pdf_add_vmtx]

theorem W2_triples_objects_length (triples : List (Int × Int × Int)) :
    (W2_triples_objects triples).length = 3 * triples.length := by
  induction triples with
  | nil => rfl
  | cons t ts ih =>
    obtain ⟨w, x, y⟩ := t
    simp only [W2_triples_objects, List.length_cons, ih]
    omega

theorem W2_triples_objects_get (triples : List (Int × Int × Int)) :
    ∀ k, k < triples.length →
      (W2_triples_objects triples).get? (k * 3 + 0) =
        some (fz_obj.int (triples.getD k (0, 0, 0)).1) ∧
      (W2_triples_objects triples).get? (k * 3 + 1) =
        some (fz_obj.int (triples.getD k (0, 0, 0)).2.1) ∧
      (W2_triples_objects triples).get? (k * 3 + 2) =
        some (fz_obj.int (triples.getD k (0, 0, 0)).2.2) := by
  induction triples with
  | nil =>
    intro k hk
    exact absurd hk (Nat.not_lt_zero _)
  | cons t ts ih =>
    obtain ⟨w, x, y⟩ := t
    intro k hk
    cases k with
    | zero => exact ⟨rfl, rfl, rfl⟩
    | succ k =>
      have hk2 : k < ts.length := by
        rw [List.length_cons] at hk
        omega
      obtain ⟨h0, h1, h2⟩ := ih k hk2
      have e0 : (k + 1) * 3 + 0 = (k * 3 + 0) + 1 + 1 + 1 := by omega
      have e1 : (k + 1) * 3 + 1 = (k * 3 + 1) + 1 + 1 + 1 := by omega
      have e2 : (k + 1) * 3 + 2 = (k * 3 + 2) + 1 + 1 + 1 := by omega
      rw [e0, e1, e2]
      simp only [W2_triples_objects, List.get?_cons_succ, List.getD_cons_succ]
      exact ⟨h0, h1, h2⟩

theorem single_vranges_eq_map (triples : List (Int × Int × Int)) (c0 : Int) :
    single_vranges c0 triples =
      (List.range triples.length).map
        (fun (k : Nat) => (⟨c0 + (k : Int), c0 + (k : Int), (triples.getD k (0, 0, 0)).2.1,
          (triples.getD k (0, 0, 0)).2.2, (triples.getD k (0, 0, 0)).1⟩ : pdf_vmtx)) := by
  induction triples generalizing c0 with
  | nil => rfl
  | cons t ts ih =>
    obtain ⟨w, x, y⟩ := t
    rw [single_vranges, ih, List.length_cons, List.range_succ_eq_map, List.map_cons,
      List.map_map]
    congr 1
    · simp
    · apply List.map_congr_left
      intro k _
      simp only [Function.comp, List.getD_cons_succ, Nat.succ_eq_add_one, Nat.cast_add,
        Nat.cast_one]
      have : c0 + 1 + (k : Int) = c0 + ((k : Int) + 1) := by omega
      rw [this]

theorem load_cid_font_W2_array_list (c0 : Int) (triples : List (Int × Int × Int))
    (fd : pdf_font_desc) (hfit : (W2_record.list c0 triples).fits = true) :
    load_cid_font_W2_array (some (fz_obj.array (W2_triples_objects triples))) c0
        (W2_triples_objects triples).length fd =
      { fd with vmtx := fd.vmtx ++ single_vranges c0 triples } := by
  have hfit2 : -2147483648 ≤ c0 ∧ c0 + triples.length ≤ 2147483648 := by
    simpa [W2_record.fits] using hfit
  unfold load_cid_font_W2_array
  have hcount : ((W2_triples_objects triples).length + 2) / 3 = triples.length := by
    rw [W2_triples_objects_length]
    omega
  rw [hcount]
  have h := foldl_add_vmtx_range
    (fun k => ⟨int_add c0 k, int_add c0 k,
      fz_to_int (fz_array_get (some (fz_obj.array (W2_triples_objects triples))) (k * 3 + 1)),
      fz_to_int (fz_array_get (some (fz_obj.array (W2_triples_objects triples))) (k * 3 + 2)),
      fz_to_int (fz_array_get (some (fz_obj.array (W2_triples_objects triples))) (k * 3 + 0))⟩)
    (List.range triples.length) fd
  simp only at h
  rw [h, single_vranges_eq_map]
  congr 2
  apply List.map_congr_left
  intro k hk
  have hk2 : k < triples.length := List.mem_range.1 hk
  have hw : int_add c0 k = c0 + k := by
    unfold int_add
    apply wrap_int_of_fits <;> omega
  obtain ⟨h0, h1, h2⟩ := W2_triples_objects_get triples k hk2
  simp only [fz_array_get, h0, h1, h2, fz_to_int, hw]

theorem load_cid_font_W2_loop_done (widths : Option fz_obj) (n fuel i : Nat)
    (fd : pdf_font_desc) (h : n ≤ i) :
    load_cid_font_W2_loop widths n (fuel + 1) i fd = some fd := by
  rw [load_cid_font_W2_loop, if_neg (by omega)]

theorem load_cid_font_W2_loop_range (items : List fz_obj) (n fuel i : Nat) (fd : pdf_font_desc)
    (c0 c1 w x y : Int) (hi : i < n)
    (h0 : items.get? i = some (fz_obj.int c0))
    (h1 : items.get? (i + 1) = some (fz_obj.int c1))
    (h2 : items.get? (i + 2) = some (fz_obj.int w))
    (h3 : items.get? (i + 3) = some (fz_obj.int x))
    (h4 : items.get? (i + 4) = some (fz_obj.int y)) :
    load_cid_font_W2_loop (some (fz_obj.array items)) n (fuel + 1) i fd =
      load_cid_font_W2_loop (some (fz_obj.array items)) n fuel (i + 5)
        (pdf_add_vmtx fd c0 c1 x y w) := by
  rw [load_cid_font_W2_loop, if_pos hi]
  simp only [fz_array_get, h0, h1, h2, h3, h4, fz_to_int, fz_is_array, Bool.false_eq_true,
    if_false]

theorem load_cid_font_W2_loop_list (items : List fz_obj) (n fuel i : Nat) (fd : pdf_font_desc)
    (c0 : Int) (ws : List fz_obj) (hi : i < n)
    (h0 : items.get? i = some (fz_obj.int c0))
    (h1 : items.get? (i + 1) = some (fz_obj.array ws)) :
    load_cid_font_W2_loop (some (fz_obj.array items)) n (fuel + 1) i fd =
      load_cid_font_W2_loop (some (fz_obj.array items)) n fuel (i + 2)
        (load_cid_font_W2_array (some (fz_obj.array ws)) c0 ws.length fd) := by
  rw [load_cid_font_W2_loop, if_pos hi]
  simp only [fz_array_get, h0, h1, fz_to_int, fz_is_array, if_true, fz_array_len]

theorem load_cid_font_W2_loop_records (recs : List W2_record) : ∀ (pre : List fz_obj)
    (fuel : Nat) (fd : pdf_font_desc), (∀ r ∈ recs, r.fits = true) →
    (W2_objects recs).length < fuel →
    load_cid_font_W2_loop (some (fz_obj.array (pre ++ W2_objects recs)))
      (pre.length + (W2_objects recs).length) fuel pre.length fd =
      some { fd with vmtx := fd.vmtx ++ W2_ranges recs } := by
  induction recs with
  | nil =>
    intro pre fuel fd _ hfuel
    cases fuel with
    | zero => exact absurd hfuel (Nat.not_lt_zero _)
    | succ fuel =>
      rw [load_cid_font_W2_loop_done _ _ _ _ _ (by simp [W2_objects])]
      simp [W2_ranges]
  | cons r rs ih =>
    intro pre fuel fd hfit hfuel
    cases fuel with
    | zero => exact absurd hfuel (Nat.not_lt_zero _)
    | succ fuel =>
      have hfit2 : ∀ r ∈ rs, r.fits = true := fun r hr => hfit r (List.mem_cons_of_mem _ hr)
      cases r with
      | range c0 c1 w x y =>
        have hobj : W2_objects (W2_record.range c0 c1 w x y :: rs) =
            fz_obj.int c0 :: fz_obj.int c1 :: fz_obj.int w :: fz_obj.int x :: fz_obj.int y ::
              W2_objects rs := rfl
        rw [hobj] at hfuel ⊢
        have g0 : (pre ++ fz_obj.int c0 :: fz_obj.int c1 :: fz_obj.int w :: fz_obj.int x ::
            fz_obj.int y :: W2_objects rs).get? pre.length = some (fz_obj.int c0) :=
          get?_append_offset pre _ 0
        have g1 : (pre ++ fz_obj.int c0 :: fz_obj.int c1 :: fz_obj.int w :: fz_obj.int x ::
            fz_obj.int y :: W2_objects rs).get? (pre.length + 1) = some (fz_obj.int c1) :=
          get?_append_offset pre _ 1
        have g2 : (pre ++ fz_obj.int c0 :: fz_obj.int c1 :: fz_obj.int w :: fz_obj.int x ::
            fz_obj.int y :: W2_objects rs).get? (pre.length + 2) = some (fz_obj.int w) :=
          get?_append_offset pre _ 2
        have g3 : (pre ++ fz_obj.int c0 :: fz_obj.int c1 :: fz_obj.int w :: fz_obj.int x ::
            fz_obj.int y :: W2_objects rs).get? (pre.length + 3) = some (fz_obj.int x) :=
          get?_append_offset pre _ 3
        have g4 : (pre ++ fz_obj.int c0 :: fz_obj.int c1 :: fz_obj.int w :: fz_obj.int x ::
            fz_obj.int y :: W2_objects rs).get? (pre.length + 4) = some (fz_obj.int y) :=
          get?_append_offset pre _ 4
        rw [load_cid_font_W2_loop_range _ _ _ _ _ c0 c1 w x y
          (by simp only [List.length_cons]; omega) g0 g1 g2 g3 g4]
        have h := ih
          (pre ++ [fz_obj.int c0, fz_obj.int c1, fz_obj.int w, fz_obj.int x, fz_obj.int y])
          fuel (pdf_add_vmtx fd c0 c1 x y w) hfit2
          (by simp only [List.length_cons] at hfuel; omega)
        have e1 : pre ++ [fz_obj.int c0, fz_obj.int c1, fz_obj.int w, fz_obj.int x,
            fz_obj.int y] ++ W2_objects rs =
            pre ++ fz_obj.int c0 :: fz_obj.int c1 :: fz_obj.int w :: fz_obj.int x ::
              fz_obj.int y :: W2_objects rs := by
          simp
        have e2 : (pre ++ [fz_obj.int c0, fz_obj.int c1, fz_obj.int w, fz_obj.int x,
            fz_obj.int y]).length = pre.length + 5 := by simp
        have e3 : pre.length + 5 + (W2_objects rs).length = pre.length +
            (fz_obj.int c0 :: fz_obj.int c1 :: fz_obj.int w :: fz_obj.int x :: fz_obj.int y ::
              W2_objects rs).length := by
          simp only [List.length_cons]
          omega
        rw [e1, e2, e3] at h
        rw [h]
        simp [pdf_add_vmtx, W2_ranges, W2_record.ranges]
      | list c0 triples =>
        have hobj : W2_objects (W2_record.list c0 triples :: rs) =
            fz_obj.int c0 :: fz_obj.array (W2_triples_objects triples) :: W2_objects rs := rfl
        rw [hobj] at hfuel ⊢
        have g0 : (pre ++ fz_obj.int c0 :: fz_obj.array (W2_triples_objects triples) ::
            W2_objects rs).get? pre.length = some (fz_obj.int c0) := get?_append_offset pre _ 0
        have g1 : (pre ++ fz_obj.int c0 :: fz_obj.array (W2_triples_objects triples) ::
            W2_objects rs).get? (pre.length + 1) =
              some (fz_obj.array (W2_triples_objects triples)) :=
          get?_append_offset pre _ 1
        rw [load_cid_font_W2_loop_list _ _ _ _ _ c0 (W2_triples_objects triples)
          (by simp only [List.length_cons]; omega) g0 g1]
        have hl := load_cid_font_W2_array_list c0 triples fd (hfit _ (List.mem_cons_self _ _))
        rw [hl]
        have h := ih (pre ++ [fz_obj.int c0, fz_obj.array (W2_triples_objects triples)]) fuel
          { fd with vmtx := fd.vmtx ++ single_vranges c0 triples } hfit2
          (by simp only [List.length_cons] at hfuel; omega)
        have e1 : pre ++ [fz_obj.int c0, fz_obj.array (W2_triples_objects triples)] ++
            W2_objects rs =
            pre ++ fz_obj.int c0 :: fz_obj.array (W2_triples_objects triples) ::
              W2_objects rs := by
          simp
        have e2 : (pre ++ [fz_obj.int c0, fz_obj.array (W2_triples_objects triples)]).length =
            pre.length + 2 := by simp
        have e3 : pre.length + 2 + (W2_objects rs).length = pre.length +
            (fz_obj.int c0 :: fz_obj.array (W2_triples_objects triples) ::
              W2_objects rs).length := by
          simp only [List.length_cons]
          omega
        rw [e1, e2, e3] at h
        rw [h]
        simp [W2_ranges, W2_record.ranges]

/-- C14: for a descriptor whose encoding has writing mode 1 and every
well-formed `W2` array (records `c0 c1 w x y` and
`c0 [w1 x1 y1 w2 x2 y2 ...]`, the codes `c0 + k` being `int` values), the
vertical step of `load_cid_font` returns and appends to `vmtx`, in array
order, the one range `[c0, c1]` with advance `w` and origin `(x, y)` of
each range record and, for each list record, the single-code range of
`c0 + k` with advance `w_{k+1}` and origin `(x_{k+1}, y_{k+1})` for each
triple `k`; the default vertical metrics get `y = DW2[0]` and
`w = DW2[1]`, or `y = 880` and `w = -1000` when `DW2` is absent, and keep
their `x`, which `pdf_new_font_desc` sets to 0; nothing else of the
descriptor changes. -/
theorem load_cid_font_W2_ranges (dict : Option fz_obj) (fd : pdf_font_desc)
    (encoding : pdf_cmap) (recs : List W2_record) (dw2 : Option (Int × Int))
    (henc : fd.encoding = some encoding) (hwmode : pdf_get_wmode encoding = 1)
    (hfit : ∀ r ∈ recs, r.fits = true)
    (hW2 : fz_dict_gets dict "W2".toList = some (fz_obj.array (W2_objects recs)))
    (hDW2 : fz_dict_gets dict "DW2".toList =
      dw2.map (fun yw => fz_obj.array [fz_obj.int yw.1, fz_obj.int yw.2])) :
    load_cid_font_vertical dict fd =
      some { fd with vmtx := fd.vmtx ++ W2_ranges recs,
                     dvmtx := { fd.dvmtx with y := (dw2.getD (880, -1000)).1,
                                              w := (dw2.getD (880, -1000)).2 } } ∧
    pdf_new_font_desc.dvmtx.x = 0 := by
  refine ⟨?_, rfl⟩
  have hy : (if (fz_dict_gets dict "DW2".toList).isSome then
      fz_to_int (fz_array_get (fz_dict_gets dict "DW2".toList) 0) else (880 : Int)) =
        (dw2.getD (880, -1000)).1 := by
    rw [hDW2]
    cases dw2 <;> rfl
  have hw : (if (fz_dict_gets dict "DW2".toList).isSome then
      fz_to_int (fz_array_get (fz_dict_gets dict "DW2".toList) 1) else (-1000 : Int)) =
        (dw2.getD (880, -1000)).2 := by
    rw [hDW2]
    cases dw2 <;> rfl
  have hloop := load_cid_font_W2_loop_records recs [] ((W2_objects recs).length + 1)
    (pdf_set_default_vmtx fd (dw2.getD (880, -1000)).1 (dw2.getD (880, -1000)).2) hfit
    (Nat.lt_succ_self _)
  simp only [List.nil_append, List.length_nil, Nat.zero_add] at hloop
  simp only [load_cid_font_vertical, henc, hwmode, if_true, hy, hw]
  rw [hW2]
  simp only [Option.isSome_some, if_true, fz_array_len]
  rw [hloop]
  simp only [pdf_set_default_vmtx, henc]

theorem load_cid_font_W2_ranges_witness :
    (load_cid_font_vertical (some dict_W2_sample) desc_vertical).map
        (fun d => (d.vmtx, d.dvmtx.x, d.dvmtx.y, d.dvmtx.w)) =
      some ([⟨1, 3, 500, -880, -1000⟩], 0, -120, -1000) := by
  rw [(load_cid_font_W2_ranges (some dict_W2_sample) desc_vertical
    ⟨"Identity-V".toList, 1, fun c => c⟩ [W2_record.range 1 3 (-1000) 500 (-880)]
    (some (-120, -1000)) rfl rfl (by decide) rfl rfl).1]
  rfl

/-! ## Termination of the `W` and `W2` loops -/

theorem load_cid_font_W_loop_step (widths : Option fz_obj) (n fuel i : Nat)
    (fd : pdf_font_desc) (hi : i < n) :
    ∃ fd1, load_cid_font_W_loop widths n (fuel + 1) i fd =
        load_cid_font_W_loop widths n fuel (i + 2) fd1 ∨
      load_cid_font_W_loop widths n (fuel + 1) i fd =
        load_cid_font_W_loop widths n fuel (i + 3) fd1 := by
  rw [load_cid_font_W_loop, if_pos hi]
  simp only
  split_ifs
  · exact ⟨_, Or.inl rfl⟩
  · exact ⟨_, Or.inr rfl⟩

theorem load_cid_font_W2_loop_step (widths : Option fz_obj) (n fuel i : Nat)
    (fd : pdf_font_desc) (hi : i < n) :
    ∃ fd1, load_cid_font_W2_loop widths n (fuel + 1) i fd =
        load_cid_font_W2_loop widths n fuel (i + 2) fd1 ∨
      load_cid_font_W2_loop widths n (fuel + 1) i fd =
        load_cid_font_W2_loop widths n fuel (i + 5) fd1 := by
  rw [load_cid_font_W2_loop, if_pos hi]
  simp only
  split_ifs
  · exact ⟨_, Or.inl rfl⟩
  · exact ⟨_, Or.inr rfl⟩

theorem load_cid_font_W_loop_returns (widths : Option fz_obj) (n : Nat) :
    ∀ (fuel i : Nat) (fd : pdf_font_desc), n - i < fuel →
      ∃ fd2, load_cid_font_W_loop widths n fuel i fd = some fd2 := by
  intro fuel
  induction fuel with
  | zero =>
    intro i fd h
    exact absurd h (Nat.not_lt_zero _)
  | succ fuel ih =>
    intro i fd h
    by_cases hi : i < n
    · obtain ⟨fd1, hstep | hstep⟩ := load_cid_font_W_loop_step widths n fuel i fd hi
      · rw [hstep]
        exact ih (i + 2) fd1 (by omega)
      · rw [hstep]
        exact ih (i + 3) fd1 (by omega)
    · exact ⟨fd, load_cid_font_W_loop_done widths n fuel i fd (by omega)⟩

theorem load_cid_font_W2_loop_returns (widths : Option fz_obj) (n : Nat) :
    ∀ (fuel i : Nat) (fd : pdf_font_desc), n - i < fuel →
      ∃ fd2, load_cid_font_W2_loop widths n fuel i fd = some fd2 := by
  intro fuel
  induction fuel with
  | zero =>
    intro i fd h
    exact absurd h (Nat.not_lt_zero _)
  | succ fuel ih =>
    intro i fd h
    by_cases hi : i < n
    · obtain ⟨fd1, hstep | hstep⟩ := load_cid_font_W2_loop_step widths n fuel i fd hi
      · rw [hstep]
        exact ih (i + 2) fd1 (by omega)
      · rw [hstep]
        exact ih (i + 5) fd1 (by omega)
    · exact ⟨fd, load_cid_font_W2_loop_done widths n fuel i fd (by omega)⟩

theorem fz_array_get_past_end (obj : Option fz_obj) (i : Nat) (h : fz_array_len obj ≤ i) :
    fz_array_get obj i = none := by
  cases obj with
  | none => rfl
  | some o =>
    cases o with
    | array items =>
      simp only [fz_array_len] at h
      simp only [fz_array_get]
      exact List.get?_eq_none.2 h
    | null => rfl
    | bool b => rfl
    | int n => rfl
    | string s => rfl
    | name s => rfl
    | dict l => rfl
    | indirect n g => rfl

/-- C16: the `W` and `W2` loops of `load_cid_font` return for every object
found under `W` or `W2`, whatever its length and the types of its
elements, and so do the horizontal step and, for a descriptor with an
encoding, the vertical step; every iteration moves the index forward, by
2 or 3 in the `W` loop and by 2 or 5 in the `W2` loop; an element read at
or past the end of the array is `NULL`, which is not an array and reads as
the integer 0. -/
theorem load_cid_font_loops_return (widths : Option fz_obj) (fd : pdf_font_desc) :
    (∃ fd2, load_cid_font_W_loop widths (fz_array_len widths) (fz_array_len widths + 1) 0 fd =
      some fd2) ∧
    (∃ fd2, load_cid_font_W2_loop widths (fz_array_len widths) (fz_array_len widths + 1) 0 fd =
      some fd2) ∧
    (∀ dict, ∃ fd2, load_cid_font_horizontal dict fd = some fd2) ∧
    (∀ dict encoding, fd.encoding = some encoding →
      ∃ fd2, load_cid_font_vertical dict fd = some fd2) ∧
    (∀ n fuel i fd0, i < n →
      ∃ fd1, load_cid_font_W_loop widths n (fuel + 1) i fd0 =
          load_cid_font_W_loop widths n fuel (i + 2) fd1 ∨
        load_cid_font_W_loop widths n (fuel + 1) i fd0 =
          load_cid_font_W_loop widths n fuel (i + 3) fd1) ∧
    (∀ n fuel i fd0, i < n →
      ∃ fd1, load_cid_font_W2_loop widths n (fuel + 1) i fd0 =
          load_cid_font_W2_loop widths n fuel (i + 2) fd1 ∨
        load_cid_font_W2_loop widths n (fuel + 1) i fd0 =
          load_cid_font_W2_loop widths n fuel (i + 5) fd1) ∧
    (∀ i, fz_array_len widths ≤ i →
      fz_array_get widths i = none ∧ fz_to_int (fz_array_get widths i) = 0 ∧
        fz_is_array (fz_array_get widths i) = false) := by
  refine ⟨?_, ?_, ?_, ?_, ?_, ?_, ?_⟩
  · exact load_cid_font_W_loop_returns widths _ _ 0 fd (by omega)
  · exact load_cid_font_W2_loop_returns widths _ _ 0 fd (by omega)
  · intro dict
    unfold load_cid_font_horizontal
    simp only
    split_ifs
    all_goals first
      | exact load_cid_font_W_loop_returns _ _ _ 0 _ (by omega)
      | exact ⟨_, rfl⟩
  · intro dict encoding henc
    unfold load_cid_font_vertical
    rw [henc]
    simp only
    split_ifs
    all_goals first
      | exact load_cid_font_W2_loop_returns _ _ _ 0 _ (by omega)
      | exact ⟨_, rfl⟩
  · intro n fuel i fd0 hi
    exact load_cid_font_W_loop_step widths n fuel i fd0 hi
  · intro n fuel i fd0 hi
    exact load_cid_font_W2_loop_step widths n fuel i fd0 hi
  · intro i hi
    have h := fz_array_get_past_end widths i hi
    rw [h]
    exact ⟨rfl, rfl, rfl⟩

theorem load_cid_font_loops_return_witness :
    (load_cid_font_horizontal (some dict_W_truncated) desc_vertical).map (fun d => d.hmtx) =
      some [⟨7, 0, 600⟩, ⟨9, 0, 0⟩] ∧
    (load_cid_font_vertical (some dict_W_truncated) desc_vertical).map (fun d => d.vmtx) =
      some [⟨7, 7, 2, 0, 1⟩, ⟨8, 9, 0, 0, 0⟩] := by
  obtain ⟨fd2, h2⟩ := (load_cid_font_loops_return none desc_vertical).2.2.1
    (some dict_W_truncated)
  obtain ⟨fd3, h3⟩ := (load_cid_font_loops_return none desc_vertical).2.2.2.1
    (some dict_W_truncated) ⟨"Identity-V".toList, 1, fun c => c⟩ rfl
  constructor
  · have e : (load_cid_font_horizontal (some dict_W_truncated) desc_vertical).map
        (fun d => d.hmtx) = some [⟨7, 0, 600⟩, ⟨9, 0, 0⟩] := by decide
    rw [h2] at e ⊢
    exact e
  · have e : (load_cid_font_vertical (some dict_W_truncated) desc_vertical).map
        (fun d => d.vmtx) = some [⟨7, 7, 2, 0, 1⟩, ⟨8, 9, 0, 0, 0⟩] := by decide
    rw [h3] at e ⊢
    exact e

/-! ## The width table -/

end PdfFont
